import Mathlib

/-!
Verification of the WazMind backend against its design specification.

The file shallowly embeds the relevant parts of the Python sources:

* `backend/app/utils/sanitizer.py` and `backend/app/utils/validator.py`
  (rule-text validation and sanitisation),
* `backend/app/utils/file.py` (`read_log_sample`),
* `backend/app/services/groq_client.py` (`GroqClient.generate_wazuh_rule`),
* `backend/app/api/wazuh_rules.py` (`suggest_rule_id`, `get_heatmap`),
* `backend/app/utils/job_processor.py` (`process_job_with_retry`).

Strings are modelled as their character lists (ASCII is assumed for the
case-folding and regular-expression fragments, which is the character
range these patterns are designed for).  Machine behaviour that depends
on the outside world (clock readings, filesystem contents, database
commit success, the generation service) is supplied through explicit
environment records, and the job pipeline additionally records an event
trace so that ordering properties (commits, cache invalidation, retries)
can be stated.
-/

/-! ### Python string primitives -/

/-- ASCII lower-casing of one character, as `str.lower` acts on ASCII. -/
def lowerChar (c : Char) : Char :=
  if 'A' ≤ c ∧ c ≤ 'Z' then Char.ofNat (c.toNat + 32) else c

/-- ASCII lower-casing of a character list. -/
def lowerList (l : List Char) : List Char := l.map lowerChar

/-- Python `str.strip` / regex `\s` whitespace class (ASCII part). -/
def isPySpace (c : Char) : Bool :=
  c = ' ' || c = '\t' || c = '\n' || c = '\r' || c = Char.ofNat 11 || c = Char.ofNat 12

/-- Regex `\w` word-character class (ASCII part). -/
def isWordChar (c : Char) : Bool := c.isAlpha || c.isDigit || c = '_'

/-- Python `str.strip`: drop leading and trailing whitespace. -/
def pyStrip (l : List Char) : List Char :=
  ((l.dropWhile isPySpace).reverse.dropWhile isPySpace).reverse

/-- Python `pat in s` substring containment (tries every start position). -/
def hasSub : List Char → List Char → Bool
  | [], pat => pat.isPrefixOf ([] : List Char)
  | l@(_ :: t), pat => pat.isPrefixOf l || hasSub t pat

/-- Occurrence count used for `lower.count("<rule")`; it counts the start
positions at which the pattern occurs, which agrees with Python's
non-overlapping count on whether the result is zero (the only use). -/
def countSub : List Char → List Char → Nat
  | [], pat => if pat.isPrefixOf ([] : List Char) then 1 else 0
  | l@(_ :: t), pat => (if pat.isPrefixOf l then 1 else 0) + countSub t pat

/-- Case-insensitive literal match of `pat` (given lower-case) at the head
of `l`; returns the remaining input on success. -/
def matchCI : List Char → List Char → Option (List Char)
  | [], l => some l
  | _ :: _, [] => none
  | p :: ps, c :: cs => if lowerChar c = p then matchCI ps cs else none

/-- Case-insensitive substring search (regex `re.search` with a literal
pattern under `re.IGNORECASE`). -/
def hasSubCI : List Char → List Char → Bool
  | [], pat => (matchCI pat ([] : List Char)).isSome
  | l@(_ :: t), pat => (matchCI pat l).isSome || hasSubCI t pat

/-- Numeric value of a digit run (value of `int` on the digit string). -/
def digitsVal (l : List Char) : Nat :=
  l.foldl (fun n c => n * 10 + (c.toNat - '0'.toNat)) 0

/-! ### `validator.validate_and_fix_rule_id`

Python rewrites every occurrence of the regex `id="(\d+)[\-_\.](\d+)"`
to `id="{base+suffix}"` (`re.sub`, leftmost non-overlapping matches).
The two quantifiers `\d+` are greedy, and since neither the separator
nor the closing quote is a digit the match is deterministic. -/

/-- Try to match `id="(\d+)[-_.](\d+)"` at the head of the input; on
success return the two numbers and the input after the match. -/
def matchIdComposite (l : List Char) : Option (Nat × Nat × List Char) :=
  match l with
  | a :: b :: c :: d :: rest =>
    if a = 'i' && b = 'd' && c = '=' && d = '"' then
      let d1 := rest.takeWhile Char.isDigit
      let r1 := rest.dropWhile Char.isDigit
      if d1.isEmpty then none else
      match r1 with
      | sep :: r2 =>
        if sep = '-' || sep = '_' || sep = '.' then
          let d2 := r2.takeWhile Char.isDigit
          let r3 := r2.dropWhile Char.isDigit
          if d2.isEmpty then none else
          match r3 with
          | q :: r4 => if q = '"' then some (digitsVal d1, digitsVal d2, r4) else none
          | [] => none
        else none
      | [] => none
    else none
  | _ => none

/-- Scanner for the `re.sub` rewriting of composite ids.  The fuel is an
upper bound on the number of scanning steps (each step consumes at least
one input character); `validate_and_fix_rule_id` supplies `length + 1`. -/
def fixIdAux : Nat → List Char → List Char
  | 0, l => l
  | _ + 1, [] => []
  | fuel + 1, c :: rest =>
    match matchIdComposite (c :: rest) with
    | some (b, s, r) =>
        'i' :: 'd' :: '=' :: '"' :: ((toString (b + s)).data ++ '"' :: fixIdAux fuel r)
    | none => c :: fixIdAux fuel rest

/-- `validator.validate_and_fix_rule_id`. -/
def validate_and_fix_rule_id (s : String) : String :=
  String.mk (fixIdAux (s.data.length + 1) s.data)

/-! ### `sanitizer.sanitize_xml_content`

Three `re.sub` passes with `re.IGNORECASE` (`re.DOTALL` on the first):
`<script[^>]*>.*?</script>` removed, then `on\w+\s*=` removed, then
`javascript:` removed.  Each pattern is deterministic: `[^>]*>` ends at
the first `>`, the lazy `.*?</script>` ends at the first closing tag,
and in `on\w+\s*=` the greedy word run and space run cannot trade
characters with the final `=`. -/

/-- Consume `[^>]*>`: everything up to and including the first `>`. -/
def dropToGt : List Char → Option (List Char)
  | [] => none
  | c :: r => if c = '>' then some r else dropToGt r

/-- Consume `.*?</script>` (case-insensitive): everything up to and
including the first closing script tag. -/
def dropPastCloseScript : List Char → Option (List Char)
  | [] => none
  | l@(_ :: t) =>
    match matchCI "</script>".data l with
    | some r => some r
    | none => dropPastCloseScript t

/-- Match the whole script-element pattern at the head of the input. -/
def matchScriptElem (l : List Char) : Option (List Char) :=
  match matchCI "<script".data l with
  | none => none
  | some r1 =>
    match dropToGt r1 with
    | none => none
    | some r2 => dropPastCloseScript r2

/-- Match `on\w+\s*=` (case-insensitive) at the head of the input. -/
def matchOnAttr (l : List Char) : Option (List Char) :=
  match l with
  | a :: b :: rest =>
    if lowerChar a = 'o' && lowerChar b = 'n' then
      let w := rest.takeWhile isWordChar
      let r1 := rest.dropWhile isWordChar
      if w.isEmpty then none else
      match r1.dropWhile isPySpace with
      | c :: r2 => if c = '=' then some r2 else none
      | [] => none
    else none
  | _ => none

/-- `re.sub(pattern, '', text)` scanner for the script-element pattern. -/
def stripScriptAux : Nat → List Char → List Char
  | 0, l => l
  | _ + 1, [] => []
  | fuel + 1, c :: rest =>
    match matchScriptElem (c :: rest) with
    | some r => stripScriptAux fuel r
    | none => c :: stripScriptAux fuel rest

/-- `re.sub` scanner for the event-handler pattern. -/
def stripOnAux : Nat → List Char → List Char
  | 0, l => l
  | _ + 1, [] => []
  | fuel + 1, c :: rest =>
    match matchOnAttr (c :: rest) with
    | some r => stripOnAux fuel r
    | none => c :: stripOnAux fuel rest

/-- `re.sub` scanner for the literal `javascript:` pattern. -/
def stripJsAux : Nat → List Char → List Char
  | 0, l => l
  | _ + 1, [] => []
  | fuel + 1, c :: rest =>
    match matchCI "javascript:".data (c :: rest) with
    | some r => stripJsAux fuel r
    | none => c :: stripJsAux fuel rest

/-- `sanitizer.sanitize_xml_content`. -/
def sanitize_xml_content (s : String) : String :=
  if s.data.isEmpty then "" else
  let l1 := stripScriptAux (s.data.length + 1) s.data
  let l2 := stripOnAux (l1.length + 1) l1
  let l3 := stripJsAux (l2.length + 1) l2
  String.mk l3

/-! ### `sanitizer.validate_and_sanitize_rule_xml` -/

/-- The five `dangerous_patterns` of the sanitiser, in list order. -/
inductive DangerPat
  | scriptTag
  | jsScheme
  | onErrorAttr
  | onLoadAttr
  | iframeTag
deriving DecidableEq

/-- The regex source text of each dangerous pattern, as interpolated into
the error message. -/
def dangerSource : DangerPat → String
  | .scriptTag => "<script"
  | .jsScheme => "javascript:"
  | .onErrorAttr => "onerror\\s*="
  | .onLoadAttr => "onload\\s*="
  | .iframeTag => "<iframe"

/-- Search for a case-insensitive literal word followed by `\s*=`
(the `onerror\s*=` and `onload\s*=` patterns). -/
def attrEqAt (word l : List Char) : Bool :=
  match matchCI word l with
  | some r =>
    match r.dropWhile isPySpace with
    | c :: _ => c = '='
    | [] => false
  | none => false

/-- `re.search` of the word-`\s*=` pattern over all start positions. -/
def hasAttrEqCI : List Char → List Char → Bool
  | [], w => attrEqAt w ([] : List Char)
  | l@(_ :: t), w => attrEqAt w l || hasAttrEqCI t w

/-- Whether one of the dangerous patterns matches somewhere in the text. -/
def hitsDanger (l : List Char) : DangerPat → Bool
  | .scriptTag => hasSubCI l "<script".data
  | .jsScheme => hasSubCI l "javascript:".data
  | .onErrorAttr => hasAttrEqCI l "onerror".data
  | .onLoadAttr => hasAttrEqCI l "onload".data
  | .iframeTag => hasSubCI l "<iframe".data

/-- First dangerous pattern found, in the order of the Python list. -/
def findDanger (l : List Char) : Option DangerPat :=
  if hitsDanger l .scriptTag then some .scriptTag
  else if hitsDanger l .jsScheme then some .jsScheme
  else if hitsDanger l .onErrorAttr then some .onErrorAttr
  else if hitsDanger l .onLoadAttr then some .onLoadAttr
  else if hitsDanger l .iframeTag then some .iframeTag
  else none

/-- Result type of the validation functions: Python returns a tuple
`(is_valid, error, sanitized)`; the two meaningful shapes are captured
as a sum. -/
inductive VRes
  | ok (text : String)
  | err (msg : String)
deriving DecidableEq

/-- `sanitizer.validate_and_sanitize_rule_xml`.  Python's emptiness test
`not rule_xml or not rule_xml.strip()` holds exactly when every
character is whitespace. -/
def validate_and_sanitize_rule_xml (s : String) : VRes :=
  if s.data.all isPySpace then VRes.err "Rule XML cannot be empty"
  else
    let u := sanitize_xml_content s
    match findDanger u.data with
    | some p => VRes.err ("Rule XML contains potentially dangerous content: " ++ dangerSource p)
    | none => VRes.ok u

/-- The four structural tokens required by `validate_xml_rule`, checked
on the lower-cased text. -/
def has4Tokens (low : List Char) : Bool :=
  hasSub low "<rule".data && hasSub low "id=".data &&
    hasSub low "level=".data && hasSub low "<description>".data

/-- `validator.validate_xml_rule`. -/
def validate_xml_rule (s : String) : VRes :=
  let fixed := validate_and_fix_rule_id s
  match validate_and_sanitize_rule_xml fixed with
  | VRes.err e => VRes.err e
  | VRes.ok sanitized =>
    let low := lowerList sanitized.data
    if !hasSub low "<rule".data then VRes.err "Rule XML must contain a <rule> tag"
    else if !hasSub low "id=".data then VRes.err "Rule XML must contain an id attribute"
    else if !hasSub low "level=".data then VRes.err "Rule XML must contain a level attribute"
    else if !hasSub low "<description>".data then VRes.err "Rule XML should contain a description"
    else if countSub low "<rule".data = 0 then VRes.err "No rule tag found"
    else VRes.ok sanitized

/-! ### `sanitizer.sanitize_error_message` -/

/-- One character under `html.escape` (with its default quoting). -/
def htmlEscapeChar (c : Char) : List Char :=
  if c = '&' then "&amp;".data
  else if c = '<' then "&lt;".data
  else if c = '>' then "&gt;".data
  else if c = '"' then "&quot;".data
  else if c.toNat = 39 then "&#x27;".data
  else [c]

/-- `sanitizer.sanitize_error_message`: HTML-escape, then truncate to 500
characters. -/
def sanitize_error_message (m : String) : String :=
  String.mk (((m.data.map htmlEscapeChar).flatten).take 500)

/-! ### Helper lemmas about the validator -/

/-- A whitespace character is not the letter `i` (head of the id pattern). -/
theorem isPySpace_ne_i {c : Char} (h : isPySpace c = true) : c ≠ 'i' := by
  intro he
  subst he
  simp [isPySpace] at h

/-- The composite-id pattern cannot match where the head is not `i`. -/
theorem matchIdComposite_head_ne {c : Char} (rest : List Char) (h : c ≠ 'i') :
    matchIdComposite (c :: rest) = none := by
  rcases rest with _ | ⟨b, _ | ⟨c2, _ | ⟨d, r⟩⟩⟩ <;> simp [matchIdComposite, h]

/-- The id-rewriting scanner leaves all-whitespace text unchanged. -/
theorem fixIdAux_all_space (fuel : Nat) (l : List Char) (h : l.all isPySpace = true) :
    fixIdAux fuel l = l := by
  induction fuel generalizing l with
  | zero => rfl
  | succ n ih =>
    cases l with
    | nil => rfl
    | cons c rest =>
      simp only [List.all_cons, Bool.and_eq_true] at h
      rw [fixIdAux, matchIdComposite_head_ne rest (isPySpace_ne_i h.1), ih rest h.2]

/-- `String.mk` of a string's characters is the string itself. -/
theorem String.mk_data (s : String) : String.mk s.data = s := by
  cases s
  rfl

/-- `validate_and_fix_rule_id` leaves all-whitespace input unchanged. -/
theorem fix_rule_id_all_space (s : String) (h : s.data.all isPySpace = true) :
    validate_and_fix_rule_id s = s := by
  unfold validate_and_fix_rule_id
  rw [fixIdAux_all_space _ _ h, String.mk_data]

/-- The occurrence count is zero exactly when the substring test fails. -/
theorem countSub_eq_zero_iff (l pat : List Char) :
    countSub l pat = 0 ↔ hasSub l pat = false := by
  induction l with
  | nil =>
    simp only [countSub, hasSub]
    cases h : List.isPrefixOf pat ([] : List Char) <;> simp [h]
  | cons c t ih =>
    simp only [countSub, hasSub]
    cases h : List.isPrefixOf pat (c :: t) <;> simp [h, ih]

/-! ### Claim C4: safety rejection vs. stripping -/

/-- The four dangerous-markup families of claim C4, detected on the raw
input with the source's own patterns: a script tag, an inline
event-handler attribute, a `javascript:` scheme reference, an iframe
tag. -/
def hitsFamily (s : String) : Bool :=
  hasSubCI s.data "<script".data
    || hasAttrEqCI s.data "onerror".data || hasAttrEqCI s.data "onload".data
    || hasSubCI s.data "javascript:".data
    || hasSubCI s.data "<iframe".data

/-- Claim C4 as stated: any input containing one of the four dangerous
families is rejected by `validate_xml_rule` rather than accepted with
the fragment stripped. -/
def claimC4 : Prop :=
  ∀ s : String, hitsFamily s = true → ∀ t, validate_xml_rule s ≠ VRes.ok t

/-- Claim C4 is false: an input carrying an inline `onerror=` handler is
accepted, the handler having been silently stripped by
`sanitize_xml_content` before the dangerous-pattern check runs. -/
theorem C4_counterexample : ¬ claimC4 := by
  intro h
  exact h "<rule id=\"1\" level=\"2\" onerror=x><description>d</description></rule>"
    (by decide)
    "<rule id=\"1\" level=\"2\" x><description>d</description></rule>"
    (by decide)

/-- Claim C4 amended: the dangerous-pattern screen applies to the
sanitised text, after complete script elements, inline event handlers
and `javascript:` references have been stripped; a pattern that survives
the stripping is rejected with an error naming it, and any accepted
output is free of all five patterns. -/
theorem C4_amended (s : String)
    (hne : (validate_and_fix_rule_id s).data.all isPySpace = false) :
    (∀ p, findDanger (sanitize_xml_content (validate_and_fix_rule_id s)).data = some p →
      validate_xml_rule s
        = VRes.err ("Rule XML contains potentially dangerous content: " ++ dangerSource p))
    ∧ (∀ t, validate_xml_rule s = VRes.ok t → findDanger t.data = none) := by
  constructor
  · intro p hp
    unfold validate_xml_rule validate_and_sanitize_rule_xml
    simp [hne, hp]
  · intro t ht
    unfold validate_xml_rule validate_and_sanitize_rule_xml at ht
    simp only [hne, Bool.false_eq_true, if_false] at ht
    cases hd : findDanger (sanitize_xml_content (validate_and_fix_rule_id s)).data with
    | some p => simp [hd] at ht
    | none =>
      simp only [hd] at ht
      split at ht
      · exact absurd ht (by simp)
      · split at ht
        · exact absurd ht (by simp)
        · split at ht
          · exact absurd ht (by simp)
          · split at ht
            · exact absurd ht (by simp)
            · split at ht
              · exact absurd ht (by simp)
              · cases ht
                exact hd

/-- Concrete instance of the amended claim C4: an iframe tag survives the
stripping passes and is rejected. -/
theorem C4_amended_witness :
    validate_xml_rule "<rule id=\"9\" level=\"3\"><iframe src=x><description>d</description></rule>"
      = VRes.err ("Rule XML contains potentially dangerous content: " ++ dangerSource DangerPat.iframeTag) :=
  (C4_amended _ (by decide)).1 DangerPat.iframeTag (by decide)

/-! ### Characterisations of `validate_and_sanitize_rule_xml` -/

/-- All-whitespace input is rejected as empty. -/
theorem vas_space (s : String) (h : s.data.all isPySpace = true) :
    validate_and_sanitize_rule_xml s = VRes.err "Rule XML cannot be empty" := by
  unfold validate_and_sanitize_rule_xml
  rw [h]
  simp

/-- A dangerous pattern surviving sanitisation is rejected. -/
theorem vas_danger (s : String) (p : DangerPat) (h : s.data.all isPySpace = false)
    (hd : findDanger (sanitize_xml_content s).data = some p) :
    validate_and_sanitize_rule_xml s
      = VRes.err ("Rule XML contains potentially dangerous content: " ++ dangerSource p) := by
  unfold validate_and_sanitize_rule_xml
  rw [h]
  simp [hd]

/-- Otherwise the sanitised text is returned. -/
theorem vas_ok (s : String) (h : s.data.all isPySpace = false)
    (hd : findDanger (sanitize_xml_content s).data = none) :
    validate_and_sanitize_rule_xml s = VRes.ok (sanitize_xml_content s) := by
  unfold validate_and_sanitize_rule_xml
  rw [h]
  simp [hd]

/-! ### Claim C5: structural validation tokens -/

/-- Claim C5 as stated: empty or whitespace-only input fails with a
non-empty error, and success requires the raw input to contain,
case-insensitively, the four structural tokens. -/
def claimC5 : Prop :=
  (∀ s : String, s.data.all isPySpace = true →
      ∃ m, validate_xml_rule s = VRes.err m ∧ m ≠ "")
  ∧ (∀ s t : String, validate_xml_rule s = VRes.ok t →
      has4Tokens (lowerList s.data) = true)

/-- Claim C5 is false: stripping a complete script element can splice an
opening rule tag together, so an input that nowhere contains `<rule`
is accepted. -/
theorem C5_counterexample : ¬ claimC5 := by
  intro h
  have h2 := h.2 "<ru<script>x</script>le id=\"1\" level=\"2\"><description>d</description></rule>"
    "<rule id=\"1\" level=\"2\"><description>d</description></rule>" (by decide)
  exact absurd h2 (by decide)

/-- Claim C5 amended: empty or whitespace-only input fails with the fixed
non-empty error message, and `validate_xml_rule` succeeds exactly when
the id-normalised text is not all whitespace, its sanitised form passes
the dangerous-pattern screen and contains the four structural tokens
case-insensitively; the accepted value is that sanitised text. -/
theorem C5_amended (s : String) :
    (s.data.all isPySpace = true →
      validate_xml_rule s = VRes.err "Rule XML cannot be empty")
    ∧ (∀ t, validate_xml_rule s = VRes.ok t ↔
        ((validate_and_fix_rule_id s).data.all isPySpace = false
          ∧ findDanger (sanitize_xml_content (validate_and_fix_rule_id s)).data = none
          ∧ has4Tokens (lowerList (sanitize_xml_content (validate_and_fix_rule_id s)).data) = true
          ∧ t = sanitize_xml_content (validate_and_fix_rule_id s))) := by
  constructor
  · intro hsp
    unfold validate_xml_rule
    rw [fix_rule_id_all_space s hsp]
    simp [vas_space s hsp]
  · intro t
    unfold validate_xml_rule
    cases hall : (validate_and_fix_rule_id s).data.all isPySpace with
    | true =>
      simp [vas_space _ hall, hall]
    | false =>
      cases hd : findDanger (sanitize_xml_content (validate_and_fix_rule_id s)).data with
      | some p =>
        simp [vas_danger _ p hall hd, hd]
      | none =>
        simp only [vas_ok _ hall hd, hall, hd, has4Tokens]
        cases h1 : hasSub (lowerList (sanitize_xml_content (validate_and_fix_rule_id s)).data) "<rule".data with
        | false => simp [h1]
        | true =>
          cases h2 : hasSub (lowerList (sanitize_xml_content (validate_and_fix_rule_id s)).data) "id=".data with
          | false => simp [h1, h2]
          | true =>
            cases h3 : hasSub (lowerList (sanitize_xml_content (validate_and_fix_rule_id s)).data) "level=".data with
            | false => simp [h1, h2, h3]
            | true =>
              cases h4 : hasSub (lowerList (sanitize_xml_content (validate_and_fix_rule_id s)).data) "<description>".data with
              | false => simp [h1, h2, h3, h4]
              | true =>
                have hcount : ¬ countSub (lowerList (sanitize_xml_content (validate_and_fix_rule_id s)).data) "<rule".data = 0 := by
                  intro h0
                  rw [(countSub_eq_zero_iff _ _).mp h0] at h1
                  exact Bool.false_ne_true h1
                simp [h1, h2, h3, h4, hcount, eq_comm]

/-- Concrete instance of the amended claim C5: whitespace-only input is
rejected with the fixed non-empty message. -/
theorem C5_amended_witness :
    validate_xml_rule "  " = VRes.err "Rule XML cannot be empty" :=
  (C5_amended "  ").1 (by decide)

/-! ### `file.read_log_sample` (claim C10)

The function is modelled over the physical lines of the referenced file
(`none` when the file does not exist).  The reading loop takes the first
`max_lines` physical lines, strips each, and keeps the non-blank ones;
if nothing remains it raises the empty-file error.  The path-validation
prologue, which depends only on the path and not on the contents, is
handled by the pipeline environment (`pathOk`). -/

/-- `file.read_log_sample` on the file's physical lines. -/
def read_log_sample (fileLines : Option (List String)) (maxLines : Nat) :
    Except String (List String) :=
  match fileLines with
  | none => Except.error "Log file not found"
  | some ls =>
    let lines := ((ls.take maxLines).map (fun l => String.mk (pyStrip l.data))).filter
      (fun l2 => !l2.data.isEmpty)
    if lines.isEmpty then Except.error "Log file is empty or contains no valid lines"
    else Except.ok lines

/-- Claim C10: `read_log_sample` examines only the first 50 physical
lines, returns at most 50 lines, and raises the empty-file error when
the first 50 physical lines are all blank, regardless of what follows
them. -/
theorem C10_read_log_sample_first50 (ls : List String) :
    read_log_sample (some ls) 50 = read_log_sample (some (ls.take 50)) 50
    ∧ (∀ out, read_log_sample (some ls) 50 = Except.ok out → out.length ≤ 50)
    ∧ ((ls.take 50).all (fun l => (pyStrip l.data).isEmpty) = true →
        read_log_sample (some ls) 50 = Except.error "Log file is empty or contains no valid lines") := by
  refine ⟨?_, ?_, ?_⟩
  · simp only [read_log_sample, List.take_take, Nat.min_self]
  · intro out hout
    simp only [read_log_sample] at hout
    by_cases hemp : (((ls.take 50).map (fun l => String.mk (pyStrip l.data))).filter
        (fun l2 => !l2.data.isEmpty)).isEmpty = true
    · rw [if_pos hemp] at hout
      exact absurd hout (by simp)
    · rw [if_neg hemp] at hout
      have hout2 : ((ls.take 50).map (fun l => String.mk (pyStrip l.data))).filter
          (fun l2 => !l2.data.isEmpty) = out := by
        injection hout
      calc out.length
          = (((ls.take 50).map (fun l => String.mk (pyStrip l.data))).filter
              (fun l2 => !l2.data.isEmpty)).length := by rw [hout2]
        _ ≤ ((ls.take 50).map (fun l => String.mk (pyStrip l.data))).length :=
            List.length_filter_le _ _
        _ = (ls.take 50).length := List.length_map _ _
        _ ≤ 50 := by simp [List.length_take]
  · intro hall
    have hnil : ((ls.take 50).map (fun l => String.mk (pyStrip l.data))).filter
        (fun l2 => !l2.data.isEmpty) = [] := by
      rw [List.filter_eq_nil_iff]
      intro a ha
      rcases List.mem_map.mp ha with ⟨l, hl, rfl⟩
      have := List.all_eq_true.mp hall l hl
      simp only [Bool.not_eq_true, Bool.not_eq_false]
      simpa using this
    simp only [read_log_sample, hnil]
    rfl

/-- Concrete instance of claim C10: fifty blank lines followed by real
content still raise the empty-file error. -/
theorem C10_witness :
    read_log_sample (some (List.replicate 50 " " ++ ["payload after the window"])) 50
      = Except.error "Log file is empty or contains no valid lines" :=
  (C10_read_log_sample_first50 _).2.2 (by decide)

/-! ### `wazuh_rules.suggest_rule_id` (claim C7)

The endpoint filters the stored records to those whose `rule_id` lies in
`[100000, 120000)`, then scans candidates `100000, 100001, …, 119999`
in order, collecting those not among the filtered ids, and stops once
`count` suggestions are gathered. -/

/-- A stored `WazuhRule` record, reduced to the fields the registry
queries use. -/
structure WazuhRule where
  rule_id : Nat
  source : String
deriving DecidableEq

/-- The candidate scan of `suggest_rule_id`: append each available
candidate and stop as soon as `count` suggestions are collected. -/
def suggestLoop (existing : List Nat) (count : Nat) : List Nat → List Nat → List Nat
  | [], acc => acc.reverse
  | c :: cs, acc =>
    if existing.contains c then suggestLoop existing count cs acc
    else if count ≤ acc.length + 1 then (c :: acc).reverse
    else suggestLoop existing count cs (c :: acc)

/-- `wazuh_rules.suggest_rule_id`. -/
def suggest_rule_id (records : List WazuhRule) (count : Nat) : List Nat :=
  let existing := (records.filter
    (fun r => decide (100000 ≤ r.rule_id) && decide (r.rule_id < 120000))).map WazuhRule.rule_id
  suggestLoop existing count (List.range' 100000 20000) []

/-- The custom-classified identifiers of a record set (used by the claim
as stated, which speaks of classification rather than the id range). -/
def customIds (records : List WazuhRule) : List Nat :=
  (records.filter (fun r => r.source == "custom")).map WazuhRule.rule_id

/-- Claim C7 as stated: the suggestion returns the first `count`
identifiers of the reserved range that are not among the
custom-classified records. -/
def claimC7 : Prop :=
  ∀ (records : List WazuhRule) (count : Nat), 1 ≤ count → count ≤ 10 →
    suggest_rule_id records count
      = ((List.range' 100000 20000).filter
          (fun c => !(customIds records).contains c)).take count

/-- Claim C7 is false: a record classified `default` whose identifier is
100000 still blocks the suggestion of 100000, because the endpoint
filters by the id range and ignores the classification. -/
theorem C7_counterexample : ¬ claimC7 := by
  intro h
  have hc := h [⟨100000, "default"⟩] 1 (by decide) (by decide)
  have h1 : suggest_rule_id [⟨100000, "default"⟩] 1 = [100001] := by rfl
  have h2 : ((List.range' 100000 20000).filter
      (fun c => !(customIds [⟨100000, "default"⟩]).contains c)).take 1 = [100000] := by rfl
  rw [h1, h2] at hc
  exact absurd hc (by decide)

/-- The scanning loop returns the accumulator followed by the first
remaining available candidates, up to the remaining quota. -/
theorem suggestLoop_eq_take_filter (existing : List Nat) (count : Nat) :
    ∀ (cs acc : List Nat), acc.length < count →
      suggestLoop existing count cs acc
        = acc.reverse ++ (cs.filter (fun c => !existing.contains c)).take (count - acc.length) := by
  intro cs
  induction cs with
  | nil => intro acc _; simp [suggestLoop]
  | cons c cs ih =>
    intro acc hacc
    rw [suggestLoop]
    cases hc : existing.contains c with
    | true =>
      rw [if_pos rfl, ih acc hacc, List.filter_cons, hc]
      simp
    | false =>
      rw [if_neg (by simp)]
      by_cases hstop : count ≤ acc.length + 1
      · rw [if_pos hstop]
        have hcount : count - acc.length = 1 := by omega
        rw [List.filter_cons, hc]
        simp [hcount]
      · rw [if_neg hstop]
        rw [ih (c :: acc) (by simp only [List.length_cons]; omega)]
        have hsub : count - acc.length = (count - (c :: acc).length) + 1 := by
          simp only [List.length_cons]
          omega
        rw [List.filter_cons, hc]
        simp [hsub, List.take_succ_cons]

/-- Claim C7 amended: the suggestion returns the first `count`
identifiers of the reserved range `[100000, 120000)` that are not among
the records whose identifier lies in that range, regardless of their
source classification. -/
theorem C7_amended (records : List WazuhRule) (count : Nat)
    (h1 : 1 ≤ count) (h10 : count ≤ 10) :
    suggest_rule_id records count
      = ((List.range' 100000 20000).filter
          (fun c => !((records.filter
            (fun r => decide (100000 ≤ r.rule_id) && decide (r.rule_id < 120000))).map
              WazuhRule.rule_id).contains c)).take count := by
  unfold suggest_rule_id
  rw [suggestLoop_eq_take_filter _ count _ [] (by simpa using h1)]
  simp

/-- Concrete instance of the amended claim C7: with custom identifiers
100000–100004 stored, one suggestion yields 100005. -/
theorem C7_amended_witness :
    suggest_rule_id
      [⟨100000, "custom"⟩, ⟨100001, "custom"⟩, ⟨100002, "custom"⟩,
        ⟨100003, "custom"⟩, ⟨100004, "custom"⟩] 1 = [100005] := by
  rw [C7_amended _ 1 (by decide) (by decide)]
  rfl

/-! ### `wazuh_rules.get_heatmap` (claim C8)

The endpoint walks `range(0, 120000, range_size)`, and for each block
start computes the inclusive block end, the number of stored rule ids
falling inside the block, the density `count / range_size`, and the
custom-range flag `start >= 100000`.  Density is modelled with exact
rational division. -/

/-- One element of the heatmap `ranges` list. -/
structure HeatBucket where
  start : Nat
  stop : Nat
  count : Nat
  density : ℚ
  is_custom_range : Bool
deriving DecidableEq

/-- Python `range(start, stop, step)` for a positive step.  The fuel
`stop - start` bounds the number of iterations because each iteration
advances the cursor by `step ≥ 1`. -/
def pyRangeAux : Nat → Nat → Nat → Nat → List Nat
  | 0, _, _, _ => []
  | fuel + 1, s, stop, step => if s < stop then s :: pyRangeAux fuel (s + step) stop step else []

/-- Python `range(start, stop, step)`. -/
def pyRange (start stop step : Nat) : List Nat := pyRangeAux (stop - start) start stop step

/-- The `ranges` list computed by `wazuh_rules.get_heatmap`. -/
def get_heatmap_ranges (ruleIds : List Nat) (rangeSize : Nat) : List HeatBucket :=
  (pyRange 0 120000 rangeSize).map (fun s =>
    let e := min (s + rangeSize) 120000
    let c := ruleIds.countP (fun rid => decide (s ≤ rid) && decide (rid < e))
    { start := s, stop := e - 1, count := c,
      density := (c : ℚ) / (rangeSize : ℚ),
      is_custom_range := decide (100000 ≤ s) })

/-- Claim C8 as stated: the heatmap partitions `[0, 120000)` into blocks
of the requested width (last block truncated), reports density as
`count / width`, flags blocks starting at or above 100000 as custom,
and its block counts sum to the total number of stored records. -/
def claimC8 : Prop :=
  ∀ (ruleIds : List Nat) (rangeSize : Nat), 100 ≤ rangeSize → rangeSize ≤ 10000 →
    ((get_heatmap_ranges ruleIds rangeSize).map HeatBucket.count).sum = ruleIds.length
    ∧ (∀ b ∈ get_heatmap_ranges ruleIds rangeSize,
        b.density = (b.count : ℚ) / (rangeSize : ℚ)
          ∧ b.is_custom_range = decide (100000 ≤ b.start)
          ∧ b.stop = min (b.start + rangeSize) 120000 - 1)
    ∧ (get_heatmap_ranges ruleIds rangeSize).map HeatBucket.start = pyRange 0 120000 rangeSize

set_option maxRecDepth 8192 in
/-- Claim C8 is false: a stored record with identifier 120000 falls in no
block, so the block counts sum to 0 while the record total is 1. -/
theorem C8_counterexample : ¬ claimC8 := by
  intro h
  have hc := (h [120000] 1000 (by decide) (by decide)).1
  have h0 : ((get_heatmap_ranges [120000] 1000).map HeatBucket.count).sum = 0 := by rfl
  rw [h0] at hc
  exact absurd hc (by decide)

/-- Adjacent half-open intervals of ids have additive counts. -/
theorem countP_interval_split (ids : List Nat) (a b c : Nat) (hab : a ≤ b) (hbc : b ≤ c) :
    ids.countP (fun r => decide (a ≤ r) && decide (r < b))
      + ids.countP (fun r => decide (b ≤ r) && decide (r < c))
      = ids.countP (fun r => decide (a ≤ r) && decide (r < c)) := by
  induction ids with
  | nil => simp
  | cons x xs ih =>
    simp only [List.countP_cons]
    by_cases h1 : a ≤ x <;> by_cases h2 : x < b <;> by_cases h3 : b ≤ x <;>
      by_cases h4 : x < c <;> simp [h1, h2, h3, h4] <;> omega

/-- An empty id interval has count zero. -/
theorem countP_interval_empty (ids : List Nat) (a b : Nat) (h : b ≤ a) :
    ids.countP (fun r => decide (a ≤ r) && decide (r < b)) = 0 := by
  rw [List.countP_eq_zero]
  intro x _
  simp only [Bool.and_eq_true, decide_eq_true_eq, not_and]
  omega

/-- Summing the per-block counts over the block walk counts exactly the
ids lying in `[s, stop)`. -/
theorem heatmap_sum_aux (ids : List Nat) (stop step : Nat) (hstep : 0 < step) :
    ∀ (fuel s : Nat), stop - s ≤ fuel →
      ((pyRangeAux fuel s stop step).map (fun s' =>
          ids.countP (fun r => decide (s' ≤ r) && decide (r < min (s' + step) stop)))).sum
        = ids.countP (fun r => decide (s ≤ r) && decide (r < stop)) := by
  intro fuel
  induction fuel with
  | zero =>
    intro s hs
    have : stop ≤ s := by omega
    simp [pyRangeAux, countP_interval_empty ids s stop this]
  | succ n ih =>
    intro s hs
    rw [pyRangeAux]
    by_cases hlt : s < stop
    · rw [if_pos hlt]
      simp only [List.map_cons, List.sum_cons]
      rw [ih (s + step) (by omega)]
      by_cases hin : s + step ≤ stop
      · rw [min_eq_left hin]
        exact countP_interval_split ids s (s + step) stop (by omega) hin
      · rw [min_eq_right (by omega)]
        rw [countP_interval_empty ids (s + step) stop (by omega)]
        omega
    · rw [if_neg hlt]
      simp [countP_interval_empty ids s stop (by omega)]

/-- Claim C8 amended: the block structure, density and custom-range flag
are as claimed, and the block counts sum to the number of stored records
whose identifier lies in `[0, 120000)` (records outside the fixed id
space fall in no block). -/
theorem C8_amended (ruleIds : List Nat) (rangeSize : Nat)
    (h100 : 100 ≤ rangeSize) (h10000 : rangeSize ≤ 10000) :
    ((get_heatmap_ranges ruleIds rangeSize).map HeatBucket.count).sum
        = ruleIds.countP (fun rid => decide (rid < 120000))
    ∧ (∀ b ∈ get_heatmap_ranges ruleIds rangeSize,
        b.density = (b.count : ℚ) / (rangeSize : ℚ)
          ∧ b.is_custom_range = decide (100000 ≤ b.start)
          ∧ b.stop = min (b.start + rangeSize) 120000 - 1)
    ∧ (get_heatmap_ranges ruleIds rangeSize).map HeatBucket.start
        = pyRange 0 120000 rangeSize := by
  refine ⟨?_, ?_, ?_⟩
  · unfold get_heatmap_ranges pyRange
    rw [List.map_map]
    have hsum := heatmap_sum_aux ruleIds 120000 rangeSize (by omega) (120000 - 0) 0 (by omega)
    have hcongr : ruleIds.countP (fun r => decide (0 ≤ r) && decide (r < 120000))
        = ruleIds.countP (fun rid => decide (rid < 120000)) := by
      apply List.countP_congr
      intro x _
      simp
    rw [← hcongr, ← hsum]
    rfl
  · intro b hb
    rcases List.mem_map.mp hb with ⟨s, _, rfl⟩
    exact ⟨rfl, rfl, rfl⟩
  · unfold get_heatmap_ranges
    rw [List.map_map]
    generalize pyRange 0 120000 rangeSize = L
    induction L with
    | nil => rfl
    | cons a l ih =>
      simp only [List.map_cons] at ih ⊢
      rw [ih]
      rfl

set_option maxRecDepth 8192 in
/-- Concrete instance of the amended claim C8: one id inside and one id
outside the space; the block counts sum to 1. -/
theorem C8_amended_witness :
    ((get_heatmap_ranges [5, 120000] 1000).map HeatBucket.count).sum = 1 := by
  rw [(C8_amended [5, 120000] 1000 (by decide) (by decide)).1]
  rfl

/-! ### `groq_client.GroqClient.generate_wazuh_rule` (claim C9)

The loop makes up to `max_retries = 3` attempts.  Each attempt consults
the service (modelled by `env : Nat → GenOutcome`, indexed by attempt).
On success the response text is stripped of code fences and returned.
On an error recognised as rate limiting (`"429"` in the message, or
`"quota"` / `"rate limit"` in its lower-casing), a delay is computed and
slept before the next attempt, except on the last attempt, which raises
the fixed quota message; any other error is re-raised immediately.  The
delay update: if the lowered message contains `"retry in"`, a match of
`retry in ([\d.]+)s` sets the delay to the parsed seconds plus one (a
group that fails float parsing falls back to doubling, and no match
leaves the delay unchanged); without the phrase the delay doubles,
capped at 30.  `int(float(g))` is modelled by exact decimal truncation
of a digits-and-dots group. -/

/-- Outcome of one call to the chat-completion service. -/
inductive GenOutcome
  | ok (text : String)
  | genErr (msg : String)

/-- Characters of the regex class `[\d.]`. -/
def isFloatChar (c : Char) : Bool := c.isDigit || c = '.'

/-- Rate-limit recognition from the error text. -/
def isRateLimitErr (e : String) : Bool :=
  hasSub e.data "429".data || hasSub (lowerList e.data) "quota".data
    || hasSub (lowerList e.data) "rate limit".data

/-- Match `retry in ([\d.]+)s` at the head of the lowered input and
return the group.  The greedy `[\d.]+` cannot trade characters with the
final `s`, so the match is deterministic. -/
def matchRetryIn (l : List Char) : Option (List Char) :=
  match matchCI "retry in ".data l with
  | none => none
  | some r =>
    let g := r.takeWhile isFloatChar
    let r2 := r.dropWhile isFloatChar
    if g.isEmpty then none else
    match r2 with
    | c :: _ => if c = 's' then some g else none
    | [] => none

/-- `re.search` of the retry-after pattern over all start positions. -/
def searchRetryIn : List Char → Option (List Char)
  | [] => none
  | l@(_ :: t) =>
    match matchRetryIn l with
    | some g => some g
    | none => searchRetryIn t

/-- Python `int(float(g))` for a group drawn from `[\d.]+`: defined when
the group has at least one digit and at most one dot; the value is the
integer part of the decimal.  (`float` raises on groups like `..`, which
the caller turns into the doubling fallback.) -/
def pyFloatFloorNat (g : List Char) : Option Nat :=
  if g.any Char.isDigit && g.countP (fun c => decide (c = '.')) ≤ 1 then
    some (digitsVal (g.takeWhile Char.isDigit))
  else none

/-- The delay update performed before sleeping on a rate-limit retry. -/
def nextDelayCode (d : Nat) (e : String) : Nat :=
  let low := lowerList e.data
  if hasSub low "retry in".data then
    match searchRetryIn low with
    | some g =>
      match pyFloatFloorNat g with
      | some v => v + 1
      | none => min (d * 2) 30
    | none => d
  else min (d * 2) 30

/-- Code-fence cleanup of a successful response. -/
def cleanFences (t : String) : String :=
  let l0 := pyStrip t.data
  let l1 := if "```xml".data.isPrefixOf l0 then l0.drop 6 else l0
  let l2 := if "```".data.isPrefixOf l1 then l1.drop 3 else l1
  let l3 := if "```".data.isSuffixOf l2 then l2.take (l2.length - 3) else l2
  String.mk (pyStrip l3)

/-- The observable outcome of one call to `generate_wazuh_rule`: the
returned text or raised message, the sleeps performed, and how many
attempts consulted the service. -/
structure GenRun where
  result : Except String String
  sleeps : List Nat
  attempts : Nat

/-- The quota message raised when the retry budget is exhausted. -/
def groqFinalRateMsg : String :=
  "Error generating rule with Groq: Groq API rate limit exceeded. Please check your API quota or try again later. You can also try a different model with higher limits."

/-- The attempt loop of `generate_wazuh_rule`; the first argument counts
the remaining loop iterations of `range(max_retries)`. -/
def groqLoop (env : Nat → GenOutcome) : Nat → Nat → Nat → List Nat → GenRun
  | 0, attempt, _, acc =>
    { result := Except.error "Error generating rule with Groq: Max retries exceeded",
      sleeps := acc.reverse, attempts := attempt }
  | r + 1, attempt, delay, acc =>
    match env attempt with
    | GenOutcome.ok text =>
      { result := Except.ok (cleanFences text), sleeps := acc.reverse, attempts := attempt + 1 }
    | GenOutcome.genErr e =>
      if isRateLimitErr e then
        if attempt < 3 - 1 then
          groqLoop env r (attempt + 1) (nextDelayCode delay e) (nextDelayCode delay e :: acc)
        else
          { result := Except.error groqFinalRateMsg, sleeps := acc.reverse, attempts := attempt + 1 }
      else
        { result := Except.error ("Error generating rule with Groq: " ++ e),
          sleeps := acc.reverse, attempts := attempt + 1 }

/-- `GroqClient.generate_wazuh_rule`: three attempts, initial delay 2. -/
def generate_wazuh_rule (env : Nat → GenOutcome) : GenRun := groqLoop env 3 0 2 []

/-- Retry-after hint as the claim reads it: the parsed group value, when
a group is both matched and parseable. -/
def hintOf (e : String) : Option Nat :=
  (searchRetryIn (lowerList e.data)).bind pyFloatFloorNat

/-- The delay schedule asserted by claim C9: extracted hint plus one
takes precedence, otherwise the delay doubles, capped at 30. -/
def claimDelay (d : Nat) (e : String) : Nat :=
  match hintOf e with
  | some v => v + 1
  | none => min (d * 2) 30

/-- Claim C9 as stated: at most 3 attempts; each sleep belongs to a
rate-limited failure and follows the claimed backoff schedule; a
non-rate-limit error aborts immediately. -/
def claimC9 : Prop :=
  ∀ env : Nat → GenOutcome,
    (generate_wazuh_rule env).attempts ≤ 3
    ∧ (∀ i, i < (generate_wazuh_rule env).sleeps.length →
        ∃ e, env i = GenOutcome.genErr e ∧ isRateLimitErr e = true
          ∧ (generate_wazuh_rule env).sleeps.get? i
              = some (claimDelay (((generate_wazuh_rule env).sleeps.take i).getLast?.getD 2) e))
    ∧ (∀ k e, env k = GenOutcome.genErr e → isRateLimitErr e = false →
        k < (generate_wazuh_rule env).attempts →
        (generate_wazuh_rule env).attempts = k + 1
          ∧ (generate_wazuh_rule env).sleeps.length = k
          ∧ (generate_wazuh_rule env).result
              = Except.error ("Error generating rule with Groq: " ++ e))

/-- Claim C9 is false: when the message contains the phrase `retry in`
but the extraction pattern does not match (here `retry in s`), the code
leaves the delay unchanged and sleeps 2 again, while the claimed
schedule doubles it to 4. -/
theorem C9_counterexample : ¬ claimC9 := by
  intro h
  obtain ⟨-, h2, -⟩ := h (fun _ => GenOutcome.genErr "429 retry in s")
  obtain ⟨e, he, -, heq⟩ := h2 0 (by decide)
  cases he
  exact absurd heq (by decide)

/-- Claim C9 amended: at most 3 attempts; each sleep belongs to a
rate-limited failure; a non-rate-limit error aborts immediately with no
further attempts; the slept delay follows the code's update rule
`nextDelayCode`, which differs from the claimed schedule only when the
message contains the phrase `retry in` without a parseable
`retry in <seconds>s` fragment, in which case the delay is left
unchanged instead of doubled. -/
theorem C9_amended (env : Nat → GenOutcome) :
    (generate_wazuh_rule env).attempts ≤ 3
    ∧ (∀ i, i < (generate_wazuh_rule env).sleeps.length →
        ∃ e, env i = GenOutcome.genErr e ∧ isRateLimitErr e = true
          ∧ (generate_wazuh_rule env).sleeps.get? i
              = some (nextDelayCode (((generate_wazuh_rule env).sleeps.take i).getLast?.getD 2) e))
    ∧ (∀ k e, env k = GenOutcome.genErr e → isRateLimitErr e = false →
        k < (generate_wazuh_rule env).attempts →
        (generate_wazuh_rule env).attempts = k + 1
          ∧ (generate_wazuh_rule env).sleeps.length = k
          ∧ (generate_wazuh_rule env).result
              = Except.error ("Error generating rule with Groq: " ++ e)) := by
  rcases h0 : env 0 with t0 | e0
  · have hrun : generate_wazuh_rule env
        = { result := Except.ok (cleanFences t0), sleeps := [], attempts := 1 } := by
      simp [generate_wazuh_rule, groqLoop, h0]
    refine ⟨by simp [hrun], ?_, ?_⟩
    · intro i hi
      rw [hrun] at hi
      simp at hi
    · intro k e hk hrl hklt
      rw [hrun] at hklt
      simp only [Nat.lt_one_iff] at hklt
      subst hklt
      rw [h0] at hk
      cases hk
  · cases hr0 : isRateLimitErr e0 with
    | false =>
      have hrun : generate_wazuh_rule env
          = { result := Except.error ("Error generating rule with Groq: " ++ e0),
              sleeps := [], attempts := 1 } := by
        simp [generate_wazuh_rule, groqLoop, h0, hr0]
      refine ⟨by simp [hrun], ?_, ?_⟩
      · intro i hi
        rw [hrun] at hi
        simp at hi
      · intro k e hk hrl hklt
        rw [hrun] at hklt
        simp only [Nat.lt_one_iff] at hklt
        subst hklt
        rw [h0] at hk
        cases hk
        rw [hrun]
        exact ⟨rfl, rfl, rfl⟩
    | true =>
      rcases h1 : env 1 with t1 | e1
      · have hrun : generate_wazuh_rule env
            = { result := Except.ok (cleanFences t1),
                sleeps := [nextDelayCode 2 e0], attempts := 2 } := by
          simp [generate_wazuh_rule, groqLoop, h0, hr0, h1]
        refine ⟨by simp [hrun], ?_, ?_⟩
        · intro i hi
          rw [hrun] at hi
          simp at hi
          subst hi
          exact ⟨e0, h0, hr0, by rw [hrun]; rfl⟩
        · intro k e hk hrl hklt
          rw [hrun] at hklt
          interval_cases k
          · rw [h0] at hk
            cases hk
            rw [hr0] at hrl
            cases hrl
          · rw [h1] at hk
            cases hk
      · cases hr1 : isRateLimitErr e1 with
        | false =>
          have hrun : generate_wazuh_rule env
              = { result := Except.error ("Error generating rule with Groq: " ++ e1),
                  sleeps := [nextDelayCode 2 e0], attempts := 2 } := by
            simp [generate_wazuh_rule, groqLoop, h0, hr0, h1, hr1]
          refine ⟨by simp [hrun], ?_, ?_⟩
          · intro i hi
            rw [hrun] at hi
            simp at hi
            subst hi
            exact ⟨e0, h0, hr0, by rw [hrun]; rfl⟩
          · intro k e hk hrl hklt
            rw [hrun] at hklt
            interval_cases k
            · rw [h0] at hk
              cases hk
              rw [hr0] at hrl
              cases hrl
            · rw [h1] at hk
              cases hk
              rw [hrun]
              exact ⟨rfl, rfl, rfl⟩
        | true =>
          rcases h2 : env 2 with t2 | e2
          · have hrun : generate_wazuh_rule env
                = { result := Except.ok (cleanFences t2),
                    sleeps := [nextDelayCode 2 e0, nextDelayCode (nextDelayCode 2 e0) e1],
                    attempts := 3 } := by
              simp [generate_wazuh_rule, groqLoop, h0, hr0, h1, hr1, h2]
            refine ⟨by simp [hrun], ?_, ?_⟩
            · intro i hi
              rw [hrun] at hi
              simp at hi
              interval_cases i
              · exact ⟨e0, h0, hr0, by rw [hrun]; rfl⟩
              · exact ⟨e1, h1, hr1, by rw [hrun]; rfl⟩
            · intro k e hk hrl hklt
              rw [hrun] at hklt
              interval_cases k
              · rw [h0] at hk
                cases hk
                rw [hr0] at hrl
                cases hrl
              · rw [h1] at hk
                cases hk
                rw [hr1] at hrl
                cases hrl
              · rw [h2] at hk
                cases hk
          · cases hr2 : isRateLimitErr e2 with
            | false =>
              have hrun : generate_wazuh_rule env
                  = { result := Except.error ("Error generating rule with Groq: " ++ e2),
                      sleeps := [nextDelayCode 2 e0, nextDelayCode (nextDelayCode 2 e0) e1],
                      attempts := 3 } := by
                simp [generate_wazuh_rule, groqLoop, h0, hr0, h1, hr1, h2, hr2]
              refine ⟨by simp [hrun], ?_, ?_⟩
              · intro i hi
                rw [hrun] at hi
                simp at hi
                interval_cases i
                · exact ⟨e0, h0, hr0, by rw [hrun]; rfl⟩
                · exact ⟨e1, h1, hr1, by rw [hrun]; rfl⟩
              · intro k e hk hrl hklt
                rw [hrun] at hklt
                interval_cases k
                · rw [h0] at hk
                  cases hk
                  rw [hr0] at hrl
                  cases hrl
                · rw [h1] at hk
                  cases hk
                  rw [hr1] at hrl
                  cases hrl
                · rw [h2] at hk
                  cases hk
                  rw [hrun]
                  exact ⟨rfl, rfl, rfl⟩
            | true =>
              have hrun : generate_wazuh_rule env
                  = { result := Except.error groqFinalRateMsg,
                      sleeps := [nextDelayCode 2 e0, nextDelayCode (nextDelayCode 2 e0) e1],
                      attempts := 3 } := by
                simp [generate_wazuh_rule, groqLoop, h0, hr0, h1, hr1, h2, hr2]
              refine ⟨by simp [hrun], ?_, ?_⟩
              · intro i hi
                rw [hrun] at hi
                simp at hi
                interval_cases i
                · exact ⟨e0, h0, hr0, by rw [hrun]; rfl⟩
                · exact ⟨e1, h1, hr1, by rw [hrun]; rfl⟩
              · intro k e hk hrl hklt
                rw [hrun] at hklt
                interval_cases k
                · rw [h0] at hk
                  cases hk
                  rw [hr0] at hrl
                  cases hrl
                · rw [h1] at hk
                  cases hk
                  rw [hr1] at hrl
                  cases hrl
                · rw [h2] at hk
                  cases hk
                  rw [hr2] at hrl
                  cases hrl

/-- Concrete instance of the amended claim C9: a non-rate-limit error on
the first attempt is raised immediately, with no retry and no sleep. -/
theorem C9_amended_witness :
    (generate_wazuh_rule (fun _ => GenOutcome.genErr "boom")).attempts = 0 + 1
    ∧ (generate_wazuh_rule (fun _ => GenOutcome.genErr "boom")).sleeps.length = 0
    ∧ (generate_wazuh_rule (fun _ => GenOutcome.genErr "boom")).result
        = Except.error ("Error generating rule with Groq: " ++ "boom") :=
  (C9_amended (fun _ => GenOutcome.genErr "boom")).2.2 0 "boom" rfl (by decide) (by decide)

/-! ### `job_processor.process_job_with_retry` (claims C1, C2, C3, C6)

The pipeline is embedded with explicit environments:

* `GlobalEnv` — facts fixed for the whole run: whether `GROQ_API_KEY` is
  configured, whether the upload-path validation accepts the stored
  path, and the log-file id (used in one error message).
* `AttemptEnv` (one per retry level) — the `datetime.utcnow()` readings
  taken at the entry timeout check, at `start_time`, at the transition
  into PROCESSING, at the four in-body timeout checks and at completion,
  plus whether the rule-save commit succeeds.
* `PDB` — the committed store: the job row, whether the `LogFile` row
  exists, the physical lines of the sample file on disk (`none`: file
  missing), and the `Rule` rows bound to this job.

Every externally visible action appends an event, so commit ordering,
cache invalidation and retries can be stated over the trace.  The
generation step reproduces the source faithfully: the call
`groq_client.generate_wazuh_rule(sample_lines, rule_id=rule_id)` passes
a keyword that `GroqClient.generate_wazuh_rule(self, sample_lines)`
does not accept, so Python raises `TypeError` before the client body
runs (or `ValueError` earlier, from `GroqClient()` when the key is
missing); the success continuation after it is translated but
unreachable. -/

/-- Job status enumeration (`models.JobStatus`). -/
inductive JStatus
  | pending
  | processing
  | completed
  | failed
deriving DecidableEq

/-- The job row fields the pipeline reads and writes. -/
structure JobRec where
  status : JStatus
  startedAt : Option Nat
  retryCount : Nat
  completedAt : Option Nat
  errorMessage : Option String
deriving DecidableEq

/-- The committed store observed by the pipeline. -/
structure PDB where
  job : Option JobRec
  logFileRow : Bool
  fileLines : Option (List String)
  rules : List String
deriving DecidableEq

/-- Clock readings and save outcome of one pipeline invocation. -/
structure AttemptEnv where
  entryNow : Nat
  startTime : Nat
  procNow : Nat
  check1Now : Nat
  check2Now : Nat
  check3Now : Nat
  check4Now : Nat
  completeNow : Nat
  saveOk : Bool

/-- Run-wide external facts. -/
structure GlobalEnv where
  apiKeyPresent : Bool
  pathOk : Bool
  logFileId : Nat

/-- The program point performing a status change. -/
inductive Site
  | entryTimeout
  | markProcessing
  | complete
  | timeoutHandler
  | exhaustHandler
deriving DecidableEq

/-- Trace events of the pipeline. -/
inductive Ev
  | attemptStart (rc : Nat)
  | entryCheck (now startedAt : Nat)
  | stepCheck (idx now startTime : Nat) (startedAt : Option Nat)
  | statusChange (s : JStatus) (site : Site)
  | commit
  | readSampleEv
  | addRule
  | cacheDelete (key : String)
  | sleepEv (secs : Nat)
deriving DecidableEq

/-- `job_processor.MAX_RETRIES`. -/
def MAX_RETRIES : Nat := 3

/-- `job_processor.RETRY_DELAY_SECONDS`. -/
def RETRY_DELAY_SECONDS : Nat := 5

/-- `job_processor.JOB_TIMEOUT_SECONDS`. -/
def JOB_TIMEOUT_SECONDS : Nat := 300

/-- The stored timeout message (the source interpolates the module
constant; the embedding interpolates its timeout parameter). -/
def timeoutMsg (T : Nat) : String := "Job timeout after " ++ toString T ++ " seconds"

/-- The stored exhaustion message. -/
def failedAfterMsg (e : String) : String :=
  "Failed after " ++ toString MAX_RETRIES ++ " retries: " ++ sanitize_error_message e

/-- The `TypeError` text raised by the call
`generate_wazuh_rule(sample_lines, rule_id=rule_id)`, whose callee
accepts only `sample_lines`. -/
def ruleIdKeywordError : String :=
  "GroqClient.generate_wazuh_rule() got an unexpected keyword argument rule_id"

/-- The `ValueError` text raised by `GroqClient()` without an API key. -/
def apiKeyError : String := "GROQ_API_KEY environment variable is not set"

/-- Exceptions escaping the pipeline body, as the two handlers
distinguish them. -/
inductive BodyErr
  | timeoutE
  | valueErr (msg : String)
deriving DecidableEq

/-- Lines 49–55 of the source: transition into PROCESSING (recording
`started_at` and the retry counter) unless already processing. -/
def markProcessing (job : JobRec) (rc procNow : Nat) : JobRec × List Ev :=
  if job.status = JStatus.processing then (job, [])
  else ({ job with status := JStatus.processing, startedAt := some procNow, retryCount := rc },
        [Ev.statusChange JStatus.processing Site.markProcessing, Ev.commit])

/-- The body of the `try` block: returns the job row and rule rows after
the body, the events performed, and the escaping exception (if any). -/
def attemptBody (T : Nat) (genv : GlobalEnv) (env : AttemptEnv) (rc : Nat)
    (db : PDB) (job : JobRec) : JobRec × List String × List Ev × Option BodyErr :=
  let mp := markProcessing job rc env.procNow
  let job1 := mp.1
  let evs1 := mp.2
  let ev2 := Ev.stepCheck 1 env.check1Now env.startTime job1.startedAt
  if T < env.check1Now - env.startTime then
    (job1, db.rules, evs1 ++ [ev2], some BodyErr.timeoutE)
  else if !db.logFileRow then
    (job1, db.rules, evs1 ++ [ev2],
      some (BodyErr.valueErr ("Log file " ++ toString genv.logFileId ++ " not found")))
  else
    let ev3 := Ev.stepCheck 2 env.check2Now env.startTime job1.startedAt
    if T < env.check2Now - env.startTime then
      (job1, db.rules, evs1 ++ [ev2, ev3], some BodyErr.timeoutE)
    else if !genv.pathOk then
      (job1, db.rules, evs1 ++ [ev2, ev3], some (BodyErr.valueErr "Invalid file path"))
    else
      match read_log_sample db.fileLines 50 with
      | Except.error e => (job1, db.rules, evs1 ++ [ev2, ev3], some (BodyErr.valueErr e))
      | Except.ok sampleLines =>
        if sampleLines.isEmpty then
          (job1, db.rules, evs1 ++ [ev2, ev3, Ev.readSampleEv],
            some (BodyErr.valueErr "Log file is empty or could not be read"))
        else
          let ev4 := Ev.stepCheck 3 env.check3Now env.startTime job1.startedAt
          if T < env.check3Now - env.startTime then
            (job1, db.rules, evs1 ++ [ev2, ev3, Ev.readSampleEv, ev4], some BodyErr.timeoutE)
          else
            let genResult : Except String String :=
              if !genv.apiKeyPresent then Except.error apiKeyError
              else Except.error ruleIdKeywordError
            match genResult with
            | Except.error e =>
              (job1, db.rules, evs1 ++ [ev2, ev3, Ev.readSampleEv, ev4],
                some (BodyErr.valueErr e))
            | Except.ok ruleXml =>
              let ev5 := Ev.stepCheck 4 env.check4Now env.startTime job1.startedAt
              if T < env.check4Now - env.startTime then
                (job1, db.rules, evs1 ++ [ev2, ev3, Ev.readSampleEv, ev4, ev5],
                  some BodyErr.timeoutE)
              else
                match validate_xml_rule ruleXml with
                | VRes.err verr =>
                  (job1, db.rules, evs1 ++ [ev2, ev3, Ev.readSampleEv, ev4, ev5],
                    some (BodyErr.valueErr
                      ("Rule validation failed: " ++ sanitize_error_message verr)))
                | VRes.ok sanitizedXml =>
                  if env.saveOk then
                    ({ job1 with status := JStatus.completed, completedAt := some env.completeNow },
                      db.rules ++ [sanitizedXml],
                      evs1 ++ [ev2, ev3, Ev.readSampleEv, ev4, ev5, Ev.addRule,
                        Ev.statusChange JStatus.completed Site.complete, Ev.commit,
                        Ev.cacheDelete "job_count"],
                      none)
                  else
                    (job1, db.rules, evs1 ++ [ev2, ev3, Ev.readSampleEv, ev4, ev5],
                      some (BodyErr.valueErr "Failed to save rule to database"))

/-- The recursive pipeline; the fuel argument bounds the recursion depth
and is supplied as `MAX_RETRIES - rc + 1`, which the retry guard
`rc < MAX_RETRIES` keeps positive at every recursive call. -/
def processAux (T : Nat) (genv : GlobalEnv) (envs : Nat → AttemptEnv) :
    Nat → PDB → Nat → PDB × List Ev × Bool
  | 0, db, _ => (db, [], false)
  | fuel + 1, db, rc =>
    match db.job with
    | none => (db, [Ev.attemptStart rc], false)
    | some job =>
      let env := envs rc
      let preEvs : List Ev :=
        match job.startedAt with
        | some st => [Ev.entryCheck env.entryNow st]
        | none => []
      let entryFired : Bool :=
        match job.startedAt with
        | some st => decide (T < env.entryNow - st)
        | none => false
      if entryFired then
        let jobF : JobRec := { job with status := JStatus.failed, errorMessage := some (timeoutMsg T) }
        ({ db with job := some jobF },
          Ev.attemptStart rc :: preEvs
            ++ [Ev.statusChange JStatus.failed Site.entryTimeout, Ev.commit],
          false)
      else
        let body := attemptBody T genv env rc db job
        match body.2.2.2 with
        | none =>
          ({ db with job := some body.1, rules := body.2.1 },
            Ev.attemptStart rc :: preEvs ++ body.2.2.1, true)
        | some BodyErr.timeoutE =>
          let jobF : JobRec := { body.1 with status := JStatus.failed, errorMessage := some (timeoutMsg T) }
          ({ db with job := some jobF, rules := body.2.1 },
            Ev.attemptStart rc :: preEvs ++ body.2.2.1
              ++ [Ev.statusChange JStatus.failed Site.timeoutHandler, Ev.commit,
                  Ev.cacheDelete "job_count"],
            false)
        | some (BodyErr.valueErr e) =>
          if rc < MAX_RETRIES then
            let r := processAux T genv envs fuel
              { db with job := some body.1, rules := body.2.1 } (rc + 1)
            (r.1, Ev.attemptStart rc :: preEvs ++ body.2.2.1
              ++ Ev.sleepEv RETRY_DELAY_SECONDS :: r.2.1, r.2.2)
          else
            let jobF : JobRec := { body.1 with status := JStatus.failed, errorMessage := some (failedAfterMsg e) }
            ({ db with job := some jobF, rules := body.2.1 },
              Ev.attemptStart rc :: preEvs ++ body.2.2.1
                ++ [Ev.statusChange JStatus.failed Site.exhaustHandler, Ev.commit,
                    Ev.cacheDelete "job_count"],
              false)

/-- `job_processor.process_job_with_retry`, parameterised by the timeout
budget (the source uses the module constant `JOB_TIMEOUT_SECONDS`). -/
def process_job_with_retry (T : Nat) (genv : GlobalEnv) (envs : Nat → AttemptEnv)
    (db : PDB) (rc : Nat) : PDB × List Ev × Bool :=
  processAux T genv envs (MAX_RETRIES - rc + 1) db rc

/-- Status of the stored job after a run. -/
def statusOf (db : PDB) : Option JStatus := db.job.map JobRec.status

/-- Stored error message of the job after a run. -/
def msgOf (db : PDB) : Option String := db.job.bind JobRec.errorMessage

/-- Whether an event is the start of a pipeline attempt. -/
def isAttemptStart : Ev → Bool
  | Ev.attemptStart _ => true
  | _ => false

/-- Whether a timeout check event fires under budget `T`, with the
comparison the source makes at that check (entry checks measure from
`started_at`, in-body checks from the invocation's `start_time`). -/
def firesB (T : Nat) : Ev → Bool
  | Ev.entryCheck now st => decide (T < now - st)
  | Ev.stepCheck _ now st _ => decide (T < now - st)
  | _ => false

/-- Whether the elapsed time measured from the job's recorded
`started_at` exceeds `T` at a check event — the reading of claim C2. -/
def cumExceededB (T : Nat) : Ev → Bool
  | Ev.entryCheck now st => decide (T < now - st)
  | Ev.stepCheck _ now _ (some st) => decide (T < now - st)
  | _ => false

/-! ### Claim C1: the end-to-end completion scenario -/

/-- Environment for the claimed end-to-end scenario: API key configured,
path validation passing, log-file row present. -/
def c1Genv : GlobalEnv := ⟨true, true, 1⟩

/-- Clocks never advance (no timeout can fire) and the database saves
succeed. -/
def c1Envs : Nat → AttemptEnv := fun _ => ⟨0, 0, 0, 0, 0, 0, 0, 0, true⟩

/-- A pending job whose sample file holds three valid log lines. -/
def c1Db : PDB :=
  ⟨some ⟨JStatus.pending, none, 0, none, none⟩, true,
    some ["line1", "line2", "line3"], []⟩

set_option maxRecDepth 16384 in
/-- Claim C1 is contradicted by the code: even with a readable non-empty
sample and a healthy generation service, every attempt of
`process_job_with_retry` raises `TypeError` at
`generate_wazuh_rule(sample_lines, rule_id=rule_id)` (the client method
takes no `rule_id`), so after four attempts the job is FAILED with the
exhaustion message and no Rule row exists. -/
theorem C1_keyword_call_always_fails :
    (process_job_with_retry 300 c1Genv c1Envs c1Db 0).1.job
      = some ⟨JStatus.failed, some 0, 0, none, some (failedAfterMsg ruleIdKeywordError)⟩
    ∧ (process_job_with_retry 300 c1Genv c1Envs c1Db 0).1.rules = []
    ∧ (process_job_with_retry 300 c1Genv c1Envs c1Db 0).2.1.countP isAttemptStart = 4 :=
  ⟨rfl, rfl, rfl⟩

/-! ### Claim C2: timeout behaviour, as stated -/

/-- Claim C2 as stated: whenever the elapsed time measured from the
job's recorded `started_at` exceeds `T` at a timeout check (at pipeline
entry or at an in-body re-check), the job ends FAILED with the message
naming `T` and no attempt is started afterwards. -/
def claimC2 : Prop :=
  ∀ (T : Nat) (genv : GlobalEnv) (envs : Nat → AttemptEnv) (db : PDB) (rc : Nat),
    ((∃ ev ∈ (process_job_with_retry T genv envs db rc).2.1, cumExceededB T ev = true) →
      statusOf (process_job_with_retry T genv envs db rc).1 = some JStatus.failed
        ∧ msgOf (process_job_with_retry T genv envs db rc).1 = some (timeoutMsg T))
    ∧ (∀ l1 ev l2,
        (process_job_with_retry T genv envs db rc).2.1 = l1 ++ ev :: l2 →
        cumExceededB T ev = true → ∀ x ∈ l2, isAttemptStart x = false)

/-- Globals for the claim-C2 scenario. -/
def c2Genv : GlobalEnv := ⟨true, true, 1⟩

/-- First invocation enters at 250 with `started_at = 0` (entry check
passes) but performs its in-body checks at 400: cumulatively past the
300-second budget, locally only 150 seconds in.  The retry invocation
enters at 410. -/
def c2Envs : Nat → AttemptEnv := fun k =>
  if k = 0 then ⟨250, 250, 250, 400, 400, 400, 400, 400, true⟩
  else ⟨410, 410, 410, 410, 410, 410, 410, 410, true⟩

/-- A job already processing since time 0 with a readable sample. -/
def c2Db : PDB :=
  ⟨some ⟨JStatus.processing, some 0, 0, none, none⟩, true, some ["x"], []⟩

set_option maxRecDepth 16384 in
/-- Claim C2 is false: the in-body re-checks measure elapsed time from
the current invocation's `start_time`, not from `started_at`, so an
attempt whose cumulative elapsed time exceeds the budget at a re-check
proceeds and is even retried afterwards. -/
theorem C2_counterexample : ¬ claimC2 := by
  intro h
  have h2 := (h 300 c2Genv c2Envs c2Db 0).2
    [Ev.attemptStart 0, Ev.entryCheck 250 0]
    (Ev.stepCheck 1 400 250 (some 0))
    [Ev.stepCheck 2 400 250 (some 0), Ev.readSampleEv, Ev.stepCheck 3 400 250 (some 0),
      Ev.sleepEv 5, Ev.attemptStart 1, Ev.entryCheck 410 0,
      Ev.statusChange JStatus.failed Site.entryTimeout, Ev.commit]
    (by rfl) (by decide)
  have h3 := h2 (Ev.attemptStart 1) (by decide)
  exact absurd h3 (by decide)

/-! ### Claim C6: commits and cache invalidation, as stated -/

/-- Claim C6 as stated: every status change is immediately committed,
and every status change (including the transition into PROCESSING) is
followed by an invalidation of the `job_count` cache entry somewhere
later in the run. -/
def claimC6 : Prop :=
  ∀ (T : Nat) (genv : GlobalEnv) (envs : Nat → AttemptEnv) (db : PDB) (rc : Nat),
    ∀ l1 s site l2,
      (process_job_with_retry T genv envs db rc).2.1 = l1 ++ Ev.statusChange s site :: l2 →
      l2.head? = some Ev.commit ∧ ∃ x ∈ l2, x = Ev.cacheDelete "job_count"

/-- Globals for the claim-C6 scenario. -/
def c6Genv : GlobalEnv := ⟨true, true, 1⟩

/-- The invocation finds the job already past its budget at entry. -/
def c6Envs : Nat → AttemptEnv := fun _ => ⟨400, 400, 400, 400, 400, 400, 400, 400, true⟩

/-- A job processing since time 0. -/
def c6Db : PDB :=
  ⟨some ⟨JStatus.processing, some 0, 0, none, none⟩, true, some ["x"], []⟩

set_option maxRecDepth 16384 in
/-- Claim C6 is false: the pre-start timeout failure changes the status
to FAILED and commits, but the run ends with no cache invalidation at
all (and the transition into PROCESSING likewise performs none). -/
theorem C6_counterexample : ¬ claimC6 := by
  intro h
  have hc := h 300 c6Genv c6Envs c6Db 0 [Ev.attemptStart 0, Ev.entryCheck 400 0]
    JStatus.failed Site.entryTimeout [Ev.commit] (by rfl)
  obtain ⟨-, x, hx, hxeq⟩ := hc
  rw [List.mem_singleton] at hx
  subst hx
  exact absurd hxeq (by decide)

/-! ### Structure of the body trace -/

/-- The transition events carry no timeout check and no attempt start. -/
theorem markProcessing_evs (T : Nat) (job : JobRec) (rc n : Nat) :
    ∀ e ∈ (markProcessing job rc n).2, firesB T e = false ∧ isAttemptStart e = false := by
  unfold markProcessing
  split <;> intro e he
  · simp at he
  · rcases List.mem_cons.mp he with rfl | he2
    · exact ⟨rfl, rfl⟩
    · rw [List.mem_singleton] at he2
      subst he2
      exact ⟨rfl, rfl⟩

/-- The only status change the transition can emit is the PROCESSING
change, immediately followed by the commit closing the list. -/
theorem markProcessing_sc (job : JobRec) (rc n : Nat) :
    ∀ l1 s site l2, (markProcessing job rc n).2 = l1 ++ Ev.statusChange s site :: l2 →
      s = JStatus.processing ∧ site = Site.markProcessing ∧ l1 = [] ∧ l2 = [Ev.commit] := by
  unfold markProcessing
  split <;> intro l1 s site l2 h
  · exact absurd h (by simp)
  · rcases l1 with _ | ⟨e1, _ | ⟨e2, l1'⟩⟩
    · rw [List.nil_append] at h
      injection h with h1 h2
      injection h1 with hs hsite
      exact ⟨hs.symm, hsite.symm, rfl, h2.symm⟩
    · simp only [List.cons_append, List.nil_append, List.cons.injEq] at h
      exact absurd h.2.1 (by simp)
    · simp only [List.cons_append, List.cons.injEq] at h
      exact absurd h.2.2 (by simp)

/-- Splitting a decomposition of an appended list at a marked element:
the element lies in the left or the right part. -/
theorem append_cons_split {α : Type} (A B l1 l2 : List α) (x : α)
    (h : A ++ B = l1 ++ x :: l2) :
    (∃ l2a, A = l1 ++ x :: l2a ∧ l2 = l2a ++ B)
      ∨ (∃ l1b, l1 = A ++ l1b ∧ B = l1b ++ x :: l2) := by
  induction A generalizing l1 with
  | nil =>
    right
    exact ⟨l1, rfl, h⟩
  | cons a A ih =>
    cases l1 with
    | nil =>
      simp only [List.cons_append, List.nil_append, List.cons.injEq] at h
      left
      exact ⟨A, by rw [h.1]; rfl, h.2.symm⟩
    | cons b l1' =>
      simp only [List.cons_append, List.cons.injEq] at h
      rcases ih l1' h.2 with ⟨l2a, hA, hl2⟩ | ⟨l1b, hl1, hB⟩
      · left
        exact ⟨l2a, by rw [h.1, hA]; rfl, hl2⟩
      · right
        exact ⟨l1b, by rw [h.1, hl1]; rfl, hB⟩

/-- Shape of the body's trace and outcome: the transition events are
followed only by timeout checks and the read marker; the body never
succeeds (the generation call always raises); a timeout outcome ends
the trace with the firing check and any other outcome leaves every
check non-firing; the first event after the transition is the first
timeout check. -/
theorem attemptBody_core (T : Nat) (genv : GlobalEnv) (env : AttemptEnv) (rc : Nat)
    (db : PDB) (job : JobRec) :
    ∃ ks : List Ev,
      (attemptBody T genv env rc db job).2.2.1 = (markProcessing job rc env.procNow).2 ++ ks
      ∧ (∀ e ∈ ks, isAttemptStart e = false ∧ ∀ s site, e ≠ Ev.statusChange s site)
      ∧ (attemptBody T genv env rc db job).2.2.2 ≠ none
      ∧ ((attemptBody T genv env rc db job).2.2.2 = some BodyErr.timeoutE →
          ∃ pre sc, ks = pre ++ [sc] ∧ firesB T sc = true ∧ ∀ e ∈ pre, firesB T e = false)
      ∧ ((attemptBody T genv env rc db job).2.2.2 ≠ some BodyErr.timeoutE →
          ∀ e ∈ ks, firesB T e = false)
      ∧ ks.head? = some (Ev.stepCheck 1 env.check1Now env.startTime
          (markProcessing job rc env.procNow).1.startedAt) := by
  by_cases h1 : T < env.check1Now - env.startTime
  · refine ⟨[Ev.stepCheck 1 env.check1Now env.startTime (markProcessing job rc env.procNow).1.startedAt],
      by simp only [attemptBody]; rw [if_pos h1],
      ?_, by simp only [attemptBody]; rw [if_pos h1]; simp,
      ?_, ?_, rfl⟩
    · intro e he
      rw [List.mem_singleton] at he
      subst he
      exact ⟨rfl, by intro s site; simp⟩
    · intro _
      exact ⟨[], _, rfl, by simp [firesB, h1], by simp⟩
    · intro hne
      exact absurd (by simp only [attemptBody]; rw [if_pos h1]) hne
  · by_cases h2 : (!db.logFileRow) = true
    · refine ⟨[Ev.stepCheck 1 env.check1Now env.startTime (markProcessing job rc env.procNow).1.startedAt],
        by simp only [attemptBody]; rw [if_neg h1, if_pos h2],
        ?_, by simp only [attemptBody]; rw [if_neg h1, if_pos h2]; simp,
        ?_, ?_, rfl⟩
      · intro e he
        rw [List.mem_singleton] at he
        subst he
        exact ⟨rfl, by intro s site; simp⟩
      · intro habs
        rw [show (attemptBody T genv env rc db job).2.2.2
            = some (BodyErr.valueErr ("Log file " ++ toString genv.logFileId ++ " not found"))
          from by simp only [attemptBody]; rw [if_neg h1, if_pos h2]] at habs
        exact absurd habs (by simp)
      · intro _ e he
        rw [List.mem_singleton] at he
        subst he
        simp [firesB, h1]
    · by_cases h3 : T < env.check2Now - env.startTime
      · refine ⟨[Ev.stepCheck 1 env.check1Now env.startTime (markProcessing job rc env.procNow).1.startedAt,
          Ev.stepCheck 2 env.check2Now env.startTime (markProcessing job rc env.procNow).1.startedAt],
          by simp only [attemptBody]; rw [if_neg h1, if_neg h2, if_pos h3],
          ?_, by simp only [attemptBody]; rw [if_neg h1, if_neg h2, if_pos h3]; simp,
          ?_, ?_, rfl⟩
        · intro e he
          rcases List.mem_cons.mp he with rfl | he2
          · exact ⟨rfl, by intro s site; simp⟩
          · rw [List.mem_singleton] at he2
            subst he2
            exact ⟨rfl, by intro s site; simp⟩
        · intro _
          refine ⟨[Ev.stepCheck 1 env.check1Now env.startTime (markProcessing job rc env.procNow).1.startedAt],
            _, rfl, by simp [firesB, h3], ?_⟩
          intro e he
          rw [List.mem_singleton] at he
          subst he
          simp [firesB, h1]
        · intro hne
          exact absurd (by simp only [attemptBody]; rw [if_neg h1, if_neg h2, if_pos h3]) hne
      · by_cases h4 : (!genv.pathOk) = true
        · refine ⟨[Ev.stepCheck 1 env.check1Now env.startTime (markProcessing job rc env.procNow).1.startedAt,
            Ev.stepCheck 2 env.check2Now env.startTime (markProcessing job rc env.procNow).1.startedAt],
            by simp only [attemptBody]; rw [if_neg h1, if_neg h2, if_neg h3, if_pos h4],
            ?_, by simp only [attemptBody]; rw [if_neg h1, if_neg h2, if_neg h3, if_pos h4]; simp,
            ?_, ?_, rfl⟩
          · intro e he
            rcases List.mem_cons.mp he with rfl | he2
            · exact ⟨rfl, by intro s site; simp⟩
            · rw [List.mem_singleton] at he2
              subst he2
              exact ⟨rfl, by intro s site; simp⟩
          · intro habs
            rw [show (attemptBody T genv env rc db job).2.2.2
                = some (BodyErr.valueErr "Invalid file path")
              from by simp only [attemptBody]; rw [if_neg h1, if_neg h2, if_neg h3, if_pos h4]] at habs
            exact absurd habs (by simp)
          · intro _ e he
            rcases List.mem_cons.mp he with rfl | he2
            · simp [firesB, h1]
            · rw [List.mem_singleton] at he2
              subst he2
              simp [firesB, h3]
        · rcases hread : read_log_sample db.fileLines 50 with emsg | ls
          · refine ⟨[Ev.stepCheck 1 env.check1Now env.startTime (markProcessing job rc env.procNow).1.startedAt,
              Ev.stepCheck 2 env.check2Now env.startTime (markProcessing job rc env.procNow).1.startedAt],
              by simp only [attemptBody, hread]; rw [if_neg h1, if_neg h2, if_neg h3, if_neg h4],
              ?_, by simp only [attemptBody, hread]; rw [if_neg h1, if_neg h2, if_neg h3, if_neg h4]; simp,
              ?_, ?_, rfl⟩
            · intro e he
              rcases List.mem_cons.mp he with rfl | he2
              · exact ⟨rfl, by intro s site; simp⟩
              · rw [List.mem_singleton] at he2
                subst he2
                exact ⟨rfl, by intro s site; simp⟩
            · intro habs
              rw [show (attemptBody T genv env rc db job).2.2.2 = some (BodyErr.valueErr emsg)
                from by simp only [attemptBody, hread]; rw [if_neg h1, if_neg h2, if_neg h3, if_neg h4]] at habs
              exact absurd habs (by simp)
            · intro _ e he
              rcases List.mem_cons.mp he with rfl | he2
              · simp [firesB, h1]
              · rw [List.mem_singleton] at he2
                subst he2
                simp [firesB, h3]
          · by_cases h5 : ls.isEmpty = true
            · refine ⟨[Ev.stepCheck 1 env.check1Now env.startTime (markProcessing job rc env.procNow).1.startedAt,
                Ev.stepCheck 2 env.check2Now env.startTime (markProcessing job rc env.procNow).1.startedAt,
                Ev.readSampleEv],
                by simp only [attemptBody, hread]; rw [if_neg h1, if_neg h2, if_neg h3, if_neg h4, if_pos h5],
                ?_, by simp only [attemptBody, hread]; rw [if_neg h1, if_neg h2, if_neg h3, if_neg h4, if_pos h5]; simp,
                ?_, ?_, rfl⟩
              · intro e he
                rcases List.mem_cons.mp he with rfl | he2
                · exact ⟨rfl, by intro s site; simp⟩
                · rcases List.mem_cons.mp he2 with rfl | he3
                  · exact ⟨rfl, by intro s site; simp⟩
                  · rw [List.mem_singleton] at he3
                    subst he3
                    exact ⟨rfl, by intro s site; simp⟩
              · intro habs
                rw [show (attemptBody T genv env rc db job).2.2.2
                    = some (BodyErr.valueErr "Log file is empty or could not be read")
                  from by simp only [attemptBody, hread]; rw [if_neg h1, if_neg h2, if_neg h3, if_neg h4, if_pos h5]] at habs
                exact absurd habs (by simp)
              · intro _ e he
                rcases List.mem_cons.mp he with rfl | he2
                · simp [firesB, h1]
                · rcases List.mem_cons.mp he2 with rfl | he3
                  · simp [firesB, h3]
                  · rw [List.mem_singleton] at he3
                    subst he3
                    simp [firesB]
            · by_cases h6 : T < env.check3Now - env.startTime
              · refine ⟨[Ev.stepCheck 1 env.check1Now env.startTime (markProcessing job rc env.procNow).1.startedAt,
                  Ev.stepCheck 2 env.check2Now env.startTime (markProcessing job rc env.procNow).1.startedAt,
                  Ev.readSampleEv,
                  Ev.stepCheck 3 env.check3Now env.startTime (markProcessing job rc env.procNow).1.startedAt],
                  by simp only [attemptBody, hread]; rw [if_neg h1, if_neg h2, if_neg h3, if_neg h4, if_neg h5, if_pos h6],
                  ?_, by simp only [attemptBody, hread]; rw [if_neg h1, if_neg h2, if_neg h3, if_neg h4, if_neg h5, if_pos h6]; simp,
                  ?_, ?_, rfl⟩
                · intro e he
                  rcases List.mem_cons.mp he with rfl | he2
                  · exact ⟨rfl, by intro s site; simp⟩
                  · rcases List.mem_cons.mp he2 with rfl | he3
                    · exact ⟨rfl, by intro s site; simp⟩
                    · rcases List.mem_cons.mp he3 with rfl | he4
                      · exact ⟨rfl, by intro s site; simp⟩
                      · rw [List.mem_singleton] at he4
                        subst he4
                        exact ⟨rfl, by intro s site; simp⟩
                · intro _
                  refine ⟨[Ev.stepCheck 1 env.check1Now env.startTime (markProcessing job rc env.procNow).1.startedAt,
                    Ev.stepCheck 2 env.check2Now env.startTime (markProcessing job rc env.procNow).1.startedAt,
                    Ev.readSampleEv],
                    _, rfl, by simp [firesB, h6], ?_⟩
                  intro e he
                  rcases List.mem_cons.mp he with rfl | he2
                  · simp [firesB, h1]
                  · rcases List.mem_cons.mp he2 with rfl | he3
                    · simp [firesB, h3]
                    · rw [List.mem_singleton] at he3
                      subst he3
                      simp [firesB]
                · intro hne
                  refine absurd ?_ hne
                  simp only [attemptBody, hread]
                  rw [if_neg h1, if_neg h2, if_neg h3, if_neg h4, if_neg h5, if_pos h6]
              · have hgen : ∃ gmsg, attemptBody T genv env rc db job
                    = ((markProcessing job rc env.procNow).1, db.rules,
                      (markProcessing job rc env.procNow).2
                        ++ [Ev.stepCheck 1 env.check1Now env.startTime (markProcessing job rc env.procNow).1.startedAt,
                          Ev.stepCheck 2 env.check2Now env.startTime (markProcessing job rc env.procNow).1.startedAt,
                          Ev.readSampleEv,
                          Ev.stepCheck 3 env.check3Now env.startTime (markProcessing job rc env.procNow).1.startedAt],
                      some (BodyErr.valueErr gmsg)) := by
                  by_cases h7 : (!genv.apiKeyPresent) = true
                  · refine ⟨apiKeyError, ?_⟩
                    simp only [attemptBody, hread]
                    rw [if_neg h1, if_neg h2, if_neg h3, if_neg h4, if_neg h5, if_neg h6, if_pos h7]
                  · refine ⟨ruleIdKeywordError, ?_⟩
                    simp only [attemptBody, hread]
                    rw [if_neg h1, if_neg h2, if_neg h3, if_neg h4, if_neg h5, if_neg h6, if_neg h7]
                obtain ⟨gmsg, hab⟩ := hgen
                refine ⟨[Ev.stepCheck 1 env.check1Now env.startTime (markProcessing job rc env.procNow).1.startedAt,
                  Ev.stepCheck 2 env.check2Now env.startTime (markProcessing job rc env.procNow).1.startedAt,
                  Ev.readSampleEv,
                  Ev.stepCheck 3 env.check3Now env.startTime (markProcessing job rc env.procNow).1.startedAt],
                  by rw [hab], ?_, by rw [hab]; simp, ?_, ?_, rfl⟩
                · intro e he
                  rcases List.mem_cons.mp he with rfl | he2
                  · exact ⟨rfl, by intro s site; simp⟩
                  · rcases List.mem_cons.mp he2 with rfl | he3
                    · exact ⟨rfl, by intro s site; simp⟩
                    · rcases List.mem_cons.mp he3 with rfl | he4
                      · exact ⟨rfl, by intro s site; simp⟩
                      · rw [List.mem_singleton] at he4
                        subst he4
                        exact ⟨rfl, by intro s site; simp⟩
                · intro habs
                  rw [show (attemptBody T genv env rc db job).2.2.2 = some (BodyErr.valueErr gmsg)
                    from by rw [hab]] at habs
                  exact absurd habs (by simp)
                · intro _ e he
                  rcases List.mem_cons.mp he with rfl | he2
                  · simp [firesB, h1]
                  · rcases List.mem_cons.mp he2 with rfl | he3
                    · simp [firesB, h3]
                    · rcases List.mem_cons.mp he3 with rfl | he4
                      · simp [firesB]
                      · rw [List.mem_singleton] at he4
                        subst he4
                        simp [firesB, h6]

/-! ### Wrapper lemmas -/

/-- A list with no attempt starts counts none. -/
theorem countP_zero_of (l : List Ev) (h : ∀ e ∈ l, isAttemptStart e = false) :
    l.countP isAttemptStart = 0 := by
  rw [List.countP_eq_zero]
  intro a ha
  simp [h a ha]

/-- Each unit of fuel contributes at most one attempt start. -/
theorem processAux_count (T : Nat) (genv : GlobalEnv) (envs : Nat → AttemptEnv) :
    ∀ (fuel : Nat) (db : PDB) (rc : Nat),
      ((processAux T genv envs fuel db rc).2.1).countP isAttemptStart ≤ fuel := by
  intro fuel
  induction fuel with
  | zero =>
    intro db rc
    simp [processAux]
  | succ n ih =>
    intro db rc
    cases hjob : db.job with
    | none =>
      simp [processAux, hjob, isAttemptStart, List.countP_cons]
    | some job =>
      obtain ⟨ks, hks, hksmem, hne, hto, hnf, hhead⟩ :=
        attemptBody_core T genv (envs rc) rc db job
      have hbevs0 : ((attemptBody T genv (envs rc) rc db job).2.2.1).countP isAttemptStart = 0 := by
        rw [hks, List.countP_append,
          countP_zero_of _ (fun e he => (markProcessing_evs T job rc _ e he).2),
          countP_zero_of _ (fun e he => (hksmem e he).1)]
      simp only [processAux, hjob]
      cases hsa : job.startedAt with
      | some st =>
        simp only [hsa]
        by_cases hfire : T < (envs rc).entryNow - st
        · rw [if_pos (by simp [hfire])]
          simp [isAttemptStart, List.countP_cons]
        · rw [if_neg (by simp [hfire])]
          cases hout : (attemptBody T genv (envs rc) rc db job).2.2.2 with
          | none => exact absurd hout hne
          | some be =>
            cases be with
            | timeoutE =>
              simp only [hout]
              simp [List.countP_cons, List.countP_append, hbevs0, isAttemptStart]
            | valueErr e =>
              simp only [hout]
              by_cases hrc : rc < MAX_RETRIES
              · rw [if_pos hrc]
                have hrec := ih { db with job := some (attemptBody T genv (envs rc) rc db job).1, rules := (attemptBody T genv (envs rc) rc db job).2.1 } (rc + 1)
                simp [List.countP_cons, List.countP_append, hbevs0, isAttemptStart]
                omega
              · rw [if_neg hrc]
                simp [List.countP_cons, List.countP_append, hbevs0, isAttemptStart]
      | none =>
        simp only [hsa]
        rw [if_neg (by simp)]
        cases hout : (attemptBody T genv (envs rc) rc db job).2.2.2 with
        | none => exact absurd hout hne
        | some be =>
          cases be with
          | timeoutE =>
            simp only [hout]
            simp [List.countP_cons, List.countP_append, hbevs0, isAttemptStart]
          | valueErr e =>
            simp only [hout]
            by_cases hrc : rc < MAX_RETRIES
            · rw [if_pos hrc]
              have hrec := ih { db with job := some (attemptBody T genv (envs rc) rc db job).1, rules := (attemptBody T genv (envs rc) rc db job).2.1 } (rc + 1)
              simp [List.countP_cons, List.countP_append, hbevs0, isAttemptStart]
              omega
            · rw [if_neg hrc]
              simp [List.countP_cons, List.countP_append, hbevs0, isAttemptStart]

/-- No retry is started after a firing timeout check: the trace property
of claim C2's conclusion. -/
def noRetryAfterFire (T : Nat) (tr : List Ev) : Prop :=
  ∀ l1 ev l2, tr = l1 ++ ev :: l2 → firesB T ev = true →
    ∀ x ∈ l2, isAttemptStart x = false

/-- The property holds vacuously when nothing fires. -/
theorem nraf_of_noFire {T : Nat} (tr : List Ev) (h : ∀ e ∈ tr, firesB T e = false) :
    noRetryAfterFire T tr := by
  intro l1 ev l2 htr hf
  have : firesB T ev = false := h ev (by rw [htr]; simp)
  rw [this] at hf
  cases hf

/-- The property holds when no event after the head of the list is an
attempt start. -/
theorem nraf_of_noStart {T : Nat} (tr : List Ev) (h : ∀ e ∈ tr, isAttemptStart e = false) :
    noRetryAfterFire T tr := by
  intro l1 ev l2 htr _ x hx
  exact h x (by rw [htr]; simp [hx])

/-- The property is preserved by prefixing non-firing events. -/
theorem nraf_append_left {T : Nat} (A R : List Ev)
    (hA : ∀ e ∈ A, firesB T e = false) (hR : noRetryAfterFire T R) :
    noRetryAfterFire T (A ++ R) := by
  intro l1 ev l2 htr hf
  rcases append_cons_split A R l1 l2 ev htr with ⟨l2a, hA2, hl2⟩ | ⟨l1b, _, hB⟩
  · have : firesB T ev = false := hA ev (by rw [hA2]; simp)
    rw [this] at hf
    cases hf
  · exact hR l1b ev l2 hB hf

/-- A firing check anywhere in a run forces the FAILED status with the
timeout message. -/
theorem processAux_fire_fails (T : Nat) (genv : GlobalEnv) (envs : Nat → AttemptEnv) :
    ∀ (fuel : Nat) (db : PDB) (rc : Nat),
      (∃ ev ∈ (processAux T genv envs fuel db rc).2.1, firesB T ev = true) →
      statusOf (processAux T genv envs fuel db rc).1 = some JStatus.failed
        ∧ msgOf (processAux T genv envs fuel db rc).1 = some (timeoutMsg T) := by
  intro fuel
  induction fuel with
  | zero =>
    intro db rc hex
    simp [processAux] at hex
  | succ n ih =>
    intro db rc hex
    cases hjob : db.job with
    | none =>
      rw [show (processAux T genv envs (n + 1) db rc)
          = (db, [Ev.attemptStart rc], false) from by simp [processAux, hjob]] at hex ⊢
      obtain ⟨ev, hev, hfev⟩ := hex
      rw [List.mem_singleton] at hev
      subst hev
      exact absurd hfev (by simp [firesB])
    | some job =>
      obtain ⟨ks, hks, hksmem, hne, hto, hnf, hhead⟩ :=
        attemptBody_core T genv (envs rc) rc db job
      simp only [processAux, hjob] at hex ⊢
      cases hsa : job.startedAt with
      | some st =>
        simp only [hsa] at hex ⊢
        by_cases hfire : T < (envs rc).entryNow - st
        · rw [if_pos (by simp [hfire])] at hex ⊢
          simp [statusOf, msgOf]
        · rw [if_neg (by simp [hfire])] at hex ⊢
          cases hout : (attemptBody T genv (envs rc) rc db job).2.2.2 with
          | none => exact absurd hout hne
          | some be =>
            have hbody : ∀ e2 ∈ (attemptBody T genv (envs rc) rc db job).2.2.1,
                isAttemptStart e2 = false := by
              intro e2 he2
              rw [hks] at he2
              rcases List.mem_append.mp he2 with h | h
              · exact (markProcessing_evs T job rc _ e2 h).2
              · exact (hksmem e2 h).1
            cases be with
            | timeoutE =>
              simp only [hout] at hex ⊢
              simp [statusOf, msgOf]
            | valueErr e =>
              have hbodyf : ∀ e2 ∈ (attemptBody T genv (envs rc) rc db job).2.2.1,
                  firesB T e2 = false := by
                intro e2 he2
                rw [hks] at he2
                rcases List.mem_append.mp he2 with h | h
                · exact (markProcessing_evs T job rc _ e2 h).1
                · exact hnf (by rw [hout]; simp) e2 h
              simp only [hout] at hex ⊢
              by_cases hrc : rc < MAX_RETRIES
              · rw [if_pos hrc] at hex ⊢
                obtain ⟨ev, hev, hfev⟩ := hex
                simp at hev
                rcases hev with rfl | rfl | hev | rfl | hev
                · exact absurd hfev (by simp [firesB])
                · exact absurd hfev (by simp [firesB, hfire])
                · rw [hbodyf ev hev] at hfev
                  cases hfev
                · exact absurd hfev (by simp [firesB])
                · exact ih _ (rc + 1) ⟨ev, hev, hfev⟩
              · rw [if_neg hrc] at hex ⊢
                obtain ⟨ev, hev, hfev⟩ := hex
                simp at hev
                rcases hev with rfl | rfl | hev | rfl | rfl | rfl
                · exact absurd hfev (by simp [firesB])
                · exact absurd hfev (by simp [firesB, hfire])
                · rw [hbodyf ev hev] at hfev
                  cases hfev
                · exact absurd hfev (by simp [firesB])
                · exact absurd hfev (by simp [firesB])
                · exact absurd hfev (by simp [firesB])
      | none =>
        simp only [hsa] at hex ⊢
        rw [if_neg (by simp)] at hex ⊢
        cases hout : (attemptBody T genv (envs rc) rc db job).2.2.2 with
        | none => exact absurd hout hne
        | some be =>
          cases be with
          | timeoutE =>
            simp only [hout] at hex ⊢
            simp [statusOf, msgOf]
          | valueErr e =>
            have hbodyf : ∀ e2 ∈ (attemptBody T genv (envs rc) rc db job).2.2.1,
                firesB T e2 = false := by
              intro e2 he2
              rw [hks] at he2
              rcases List.mem_append.mp he2 with h | h
              · exact (markProcessing_evs T job rc _ e2 h).1
              · exact hnf (by rw [hout]; simp) e2 h
            simp only [hout] at hex ⊢
            by_cases hrc : rc < MAX_RETRIES
            · rw [if_pos hrc] at hex ⊢
              obtain ⟨ev, hev, hfev⟩ := hex
              simp at hev
              rcases hev with rfl | hev | rfl | hev
              · exact absurd hfev (by simp [firesB])
              · rw [hbodyf ev hev] at hfev
                cases hfev
              · exact absurd hfev (by simp [firesB])
              · exact ih _ (rc + 1) ⟨ev, hev, hfev⟩
            · rw [if_neg hrc] at hex ⊢
              obtain ⟨ev, hev, hfev⟩ := hex
              simp at hev
              rcases hev with rfl | hev | rfl | rfl | rfl
              · exact absurd hfev (by simp [firesB])
              · rw [hbodyf ev hev] at hfev
                cases hfev
              · exact absurd hfev (by simp [firesB])
              · exact absurd hfev (by simp [firesB])
              · exact absurd hfev (by simp [firesB])

/-- The property holds when the head does not fire and nothing after the
head is an attempt start. -/
theorem nraf_cons {T : Nat} (e0 : Ev) (rest : List Ev) (h0 : firesB T e0 = false)
    (hrest : ∀ x ∈ rest, isAttemptStart x = false) :
    noRetryAfterFire T (e0 :: rest) := by
  intro l1 ev l2 htr hf
  cases l1 with
  | nil =>
    rw [List.nil_append] at htr
    injection htr with h1 h2
    subst h1
    rw [h0] at hf
    cases hf
  | cons a l1' =>
    rw [List.cons_append] at htr
    injection htr with h1 h2
    intro x hx
    refine hrest x ?_
    rw [h2]
    exact List.mem_append_right _ (List.mem_cons_of_mem _ hx)

/-- The property is preserved by prefixing non-firing events and one
more non-firing separator. -/
theorem nraf_append_cons {T : Nat} (A R : List Ev) (s : Ev)
    (hA : ∀ e ∈ A, firesB T e = false) (hs : firesB T s = false)
    (hR : noRetryAfterFire T R) :
    noRetryAfterFire T (A ++ s :: R) := by
  have h1 : ∀ e ∈ A ++ [s], firesB T e = false := by
    intro e he
    rcases List.mem_append.mp he with h | h
    · exact hA e h
    · rw [List.mem_singleton] at h
      subst h
      exact hs
  have h2 := nraf_append_left (A ++ [s]) R h1 hR
  simpa only [List.append_assoc, List.singleton_append] using h2

/-- A run never starts a fresh attempt after a timeout check has fired:
within one attempt a firing check aborts the attempt, and a firing
handler ends the whole run without retrying. -/
theorem processAux_nraf (T : Nat) (genv : GlobalEnv) (envs : Nat → AttemptEnv) :
    ∀ (fuel : Nat) (db : PDB) (rc : Nat),
      noRetryAfterFire T (processAux T genv envs fuel db rc).2.1 := by
  intro fuel
  induction fuel with
  | zero =>
    intro db rc
    exact nraf_of_noFire _ (by intro e he; simp [processAux] at he)
  | succ n ih =>
    intro db rc
    cases hjob : db.job with
    | none =>
      rw [show (processAux T genv envs (n + 1) db rc)
          = (db, [Ev.attemptStart rc], false) from by simp [processAux, hjob]]
      refine nraf_of_noFire _ ?_
      intro e he
      rw [List.mem_singleton] at he
      subst he
      rfl
    | some job =>
      obtain ⟨ks, hks, hksmem, hne, hto, hnf, hhead⟩ :=
        attemptBody_core T genv (envs rc) rc db job
      have hbodyS : ∀ e2 ∈ (attemptBody T genv (envs rc) rc db job).2.2.1,
          isAttemptStart e2 = false := by
        intro e2 he2
        rw [hks] at he2
        rcases List.mem_append.mp he2 with h | h
        · exact (markProcessing_evs T job rc _ e2 h).2
        · exact (hksmem e2 h).1
      simp only [processAux, hjob]
      cases hsa : job.startedAt with
      | some st =>
        simp only [hsa]
        by_cases hfire : T < (envs rc).entryNow - st
        · rw [if_pos (by simp [hfire])]
          refine nraf_cons _ _ rfl ?_
          intro x hx
          simp at hx
          rcases hx with rfl | rfl | rfl <;> rfl
        · rw [if_neg (by simp [hfire])]
          cases hout : (attemptBody T genv (envs rc) rc db job).2.2.2 with
          | none => exact absurd hout hne
          | some be =>
            cases be with
            | timeoutE =>
              simp only [hout]
              refine nraf_cons _ _ rfl ?_
              intro x hx
              simp at hx
              rcases hx with rfl | hx | rfl | rfl | rfl
              · rfl
              · exact hbodyS x hx
              · rfl
              · rfl
              · rfl
            | valueErr e =>
              have hbodyf : ∀ e2 ∈ (attemptBody T genv (envs rc) rc db job).2.2.1,
                  firesB T e2 = false := by
                intro e2 he2
                rw [hks] at he2
                rcases List.mem_append.mp he2 with h | h
                · exact (markProcessing_evs T job rc _ e2 h).1
                · exact hnf (by rw [hout]; simp) e2 h
              simp only [hout]
              by_cases hrc : rc < MAX_RETRIES
              · rw [if_pos hrc]
                refine nraf_append_cons _ _ _ ?_ rfl (ih _ (rc + 1))
                intro e he
                simp at he
                rcases he with rfl | rfl | he
                · rfl
                · simp [firesB, hfire]
                · exact hbodyf e he
              · rw [if_neg hrc]
                refine nraf_cons _ _ rfl ?_
                intro x hx
                simp at hx
                rcases hx with rfl | hx | rfl | rfl | rfl
                · rfl
                · exact hbodyS x hx
                · rfl
                · rfl
                · rfl
      | none =>
        simp only [hsa]
        rw [if_neg (by simp)]
        cases hout : (attemptBody T genv (envs rc) rc db job).2.2.2 with
        | none => exact absurd hout hne
        | some be =>
          cases be with
          | timeoutE =>
            simp only [hout]
            refine nraf_cons _ _ rfl ?_
            intro x hx
            simp at hx
            rcases hx with hx | rfl | rfl | rfl
            · exact hbodyS x hx
            · rfl
            · rfl
            · rfl
          | valueErr e =>
            have hbodyf : ∀ e2 ∈ (attemptBody T genv (envs rc) rc db job).2.2.1,
                firesB T e2 = false := by
              intro e2 he2
              rw [hks] at he2
              rcases List.mem_append.mp he2 with h | h
              · exact (markProcessing_evs T job rc _ e2 h).1
              · exact hnf (by rw [hout]; simp) e2 h
            simp only [hout]
            by_cases hrc : rc < MAX_RETRIES
            · rw [if_pos hrc]
              refine nraf_append_cons _ _ _ ?_ rfl (ih _ (rc + 1))
              intro e he
              simp at he
              rcases he with rfl | he
              · rfl
              · exact hbodyf e he
            · rw [if_neg hrc]
              refine nraf_cons _ _ rfl ?_
              intro x hx
              simp at hx
              rcases hx with hx | rfl | rfl | rfl
              · exact hbodyS x hx
              · rfl
              · rfl
              · rfl

/-- The amended C2 property: firing is judged exactly where the source
judges it (entry checks against `started_at`, in-body re-checks against
the invocation's own `start_time`). -/
def claimC2Amended : Prop :=
  ∀ (T : Nat) (genv : GlobalEnv) (envs : Nat → AttemptEnv) (db : PDB) (rc : Nat),
    ((∃ ev ∈ (process_job_with_retry T genv envs db rc).2.1, firesB T ev = true) →
      statusOf (process_job_with_retry T genv envs db rc).1 = some JStatus.failed
        ∧ msgOf (process_job_with_retry T genv envs db rc).1 = some (timeoutMsg T))
    ∧ noRetryAfterFire T (process_job_with_retry T genv envs db rc).2.1

/-- Claim C2, amended: whenever a timeout comparison the code actually
performs fires — the entry check measuring from `started_at`, or an
in-body re-check measuring from the invocation's `start_time` — the run
ends with the job FAILED carrying the message naming the budget, and no
attempt is ever started after a firing check. -/
theorem C2_amended : claimC2Amended := by
  intro T genv envs db rc
  exact ⟨processAux_fire_fails T genv envs _ db rc, processAux_nraf T genv envs _ db rc⟩

/-- A run for the amended-C2 witness: the job has been processing since
time 0 and the invocation enters at time 500, past the 300-second
budget. -/
def c2wEnvs : Nat → AttemptEnv := fun _ => ⟨500, 500, 500, 500, 500, 500, 500, 500, true⟩

/-- Witness database: a processing job with one readable line. -/
def c2wDb : PDB :=
  ⟨some ⟨JStatus.processing, some 0, 1, none, none⟩, true, some ["a"], []⟩

set_option maxRecDepth 16384 in
/-- Concrete instance of the amended C2 property: the entry check at
time 500 fires against `started_at = 0` and the job ends FAILED with
the timeout message. -/
theorem C2_amended_witness :
    statusOf (process_job_with_retry 300 ⟨true, true, 1⟩ c2wEnvs c2wDb 1).1
        = some JStatus.failed
      ∧ msgOf (process_job_with_retry 300 ⟨true, true, 1⟩ c2wEnvs c2wDb 1).1
        = some (timeoutMsg 300) :=
  (C2_amended 300 ⟨true, true, 1⟩ c2wEnvs c2wDb 1).1
    ⟨Ev.entryCheck 500 0, by decide, by decide⟩

/-- When the stored job exists and no timeout check fires, the run
exhausts its retries and ends FAILED with the exhaustion message built
from the last error. -/
theorem processAux_exhaust (T : Nat) (genv : GlobalEnv) (envs : Nat → AttemptEnv) :
    ∀ (fuel : Nat) (rc : Nat) (db : PDB), fuel = MAX_RETRIES - rc + 1 → rc ≤ MAX_RETRIES →
      db.job.isSome = true →
      (∀ e ∈ (processAux T genv envs fuel db rc).2.1, firesB T e = false) →
      statusOf (processAux T genv envs fuel db rc).1 = some JStatus.failed
        ∧ ∃ e, msgOf (processAux T genv envs fuel db rc).1 = some (failedAfterMsg e) := by
  intro fuel
  induction fuel with
  | zero =>
    intro rc db hfuel _ _ _
    omega
  | succ n ih =>
    intro rc db hfuel hrcle hsome hnof
    cases hjob : db.job with
    | none =>
      rw [hjob] at hsome
      cases hsome
    | some job =>
      obtain ⟨ks, hks, hksmem, hne, hto, hnf, hhead⟩ :=
        attemptBody_core T genv (envs rc) rc db job
      simp only [processAux, hjob] at hnof ⊢
      cases hsa : job.startedAt with
      | some st =>
        simp only [hsa] at hnof ⊢
        by_cases hfire : T < (envs rc).entryNow - st
        · rw [if_pos (by simp [hfire])] at hnof
          have hc := hnof (Ev.entryCheck (envs rc).entryNow st) (by simp)
          simp [firesB, hfire] at hc
        · rw [if_neg (by simp [hfire])] at hnof ⊢
          cases hout : (attemptBody T genv (envs rc) rc db job).2.2.2 with
          | none => exact absurd hout hne
          | some be =>
            cases be with
            | timeoutE =>
              obtain ⟨pre, sc, hkspre, hfsc, -⟩ := hto hout
              simp only [hout] at hnof
              have hmem : sc ∈ (attemptBody T genv (envs rc) rc db job).2.2.1 := by
                rw [hks, hkspre]
                simp
              have hc := hnof sc (by simp [hmem])
              rw [hfsc] at hc
              cases hc
            | valueErr e =>
              simp only [hout] at hnof ⊢
              by_cases hrc : rc < MAX_RETRIES
              · rw [if_pos hrc] at hnof ⊢
                exact ih (rc + 1) _ (by omega) (by omega) (by simp)
                  (fun e2 he2 => hnof e2 (by simp [he2]))
              · rw [if_neg hrc] at hnof ⊢
                exact ⟨by simp [statusOf], e, by simp [msgOf]⟩
      | none =>
        simp only [hsa] at hnof ⊢
        rw [if_neg (by simp)] at hnof ⊢
        cases hout : (attemptBody T genv (envs rc) rc db job).2.2.2 with
        | none => exact absurd hout hne
        | some be =>
          cases be with
          | timeoutE =>
            obtain ⟨pre, sc, hkspre, hfsc, -⟩ := hto hout
            simp only [hout] at hnof
            have hmem : sc ∈ (attemptBody T genv (envs rc) rc db job).2.2.1 := by
              rw [hks, hkspre]
              simp
            have hc := hnof sc (by simp [hmem])
            rw [hfsc] at hc
            cases hc
          | valueErr e =>
            simp only [hout] at hnof ⊢
            by_cases hrc : rc < MAX_RETRIES
            · rw [if_pos hrc] at hnof ⊢
              exact ih (rc + 1) _ (by omega) (by omega) (by simp)
                (fun e2 he2 => hnof e2 (by simp [he2]))
            · rw [if_neg hrc] at hnof ⊢
              exact ⟨by simp [statusOf], e, by simp [msgOf]⟩

/-! ### Claim C3: attempt bound and retry exhaustion -/

/-- Claim C3 as a property of a run started at retry count 0: at most
`MAX_RETRIES + 1` attempts are started, and when the job exists and
every attempt fails without a timeout the run ends FAILED with the
exhaustion message, which cites `MAX_RETRIES` and the sanitized last
error. -/
def claimC3 : Prop :=
  ∀ (T : Nat) (genv : GlobalEnv) (envs : Nat → AttemptEnv) (db : PDB),
    (process_job_with_retry T genv envs db 0).2.1.countP isAttemptStart ≤ MAX_RETRIES + 1
    ∧ (db.job.isSome = true →
        (∀ e ∈ (process_job_with_retry T genv envs db 0).2.1, firesB T e = false) →
        statusOf (process_job_with_retry T genv envs db 0).1 = some JStatus.failed
          ∧ ∃ e, msgOf (process_job_with_retry T genv envs db 0).1
              = some (failedAfterMsg e))

/-- Claim C3 holds: the fuelled recursion starts at most
`MAX_RETRIES + 1 = 4` attempts, and a run whose attempts all fail with
non-timeout errors terminates with the job FAILED and a message of the
form `failedAfterMsg e`, which names `MAX_RETRIES` and applies
`sanitize_error_message` to the last error. -/
theorem C3_attempts_and_exhaustion : claimC3 := by
  intro T genv envs db
  refine ⟨processAux_count T genv envs _ db 0, ?_⟩
  intro hsome hnof
  exact processAux_exhaust T genv envs _ 0 db rfl (by omega) hsome hnof

/-- Witness environment for C3: clocks stand still so that no timeout
check can fire. -/
def c3wEnvs : Nat → AttemptEnv := fun _ => ⟨0, 0, 0, 0, 0, 0, 0, 0, true⟩

/-- Witness database for C3: a fresh pending job with two readable
lines. -/
def c3wDb : PDB :=
  ⟨some ⟨JStatus.pending, none, 0, none, none⟩, true, some ["a", "b"], []⟩

set_option maxRecDepth 16384 in
/-- Concrete instance of claim C3: with a healthy environment (where
every attempt still fails on the keyword-argument `TypeError`), at most
four attempts run and the job ends FAILED with the exhaustion
message. -/
theorem C3_witness :
    (process_job_with_retry 500 ⟨true, true, 2⟩ c3wEnvs c3wDb 0).2.1.countP isAttemptStart
        ≤ MAX_RETRIES + 1
      ∧ statusOf (process_job_with_retry 500 ⟨true, true, 2⟩ c3wEnvs c3wDb 0).1
          = some JStatus.failed
      ∧ ∃ e, msgOf (process_job_with_retry 500 ⟨true, true, 2⟩ c3wEnvs c3wDb 0).1
          = some (failedAfterMsg e) := by
  have h := C3_attempts_and_exhaustion 500 ⟨true, true, 2⟩ c3wEnvs c3wDb
  have h2 := h.2 (by decide) (by decide)
  exact ⟨h.1, h2.1, h2.2⟩

/-! ### Claim C6, amended: what actually follows each status change -/

/-- What follows a status change in the run's trace, by change site: the
commit comes immediately; the two failure handlers and the completion
path invalidate the `job_count` cache entry right after the commit; the
pre-start timeout failure ends the run at its commit; the transition
into PROCESSING is followed by the first in-body timeout check, not an
invalidation; and the COMPLETED transition never occurs at all. -/
def scFollow (site : Site) (l2 : List Ev) : Prop :=
  l2.head? = some Ev.commit
  ∧ ((site = Site.timeoutHandler ∨ site = Site.exhaustHandler) →
      l2.tail.head? = some (Ev.cacheDelete "job_count"))
  ∧ (site = Site.entryTimeout → l2 = [Ev.commit])
  ∧ (site = Site.markProcessing →
      ∃ i now stt sa, l2.tail.head? = some (Ev.stepCheck i now stt sa))
  ∧ site ≠ Site.complete

/-- A list none of whose events is a status change admits no
decomposition at one. -/
theorem no_sc_of_all {L : List Ev}
    (h : ∀ e ∈ L, ∀ s site, e ≠ Ev.statusChange s site)
    {l1 : List Ev} {s : JStatus} {site : Site} {l2 : List Ev}
    (hL : L = l1 ++ Ev.statusChange s site :: l2) : False :=
  h (Ev.statusChange s site) (by rw [hL]; simp) s site rfl

/-- The head of a nonempty list survives appending on the right. -/
theorem head_append {K S : List Ev} {h : Ev} (hh : K.head? = some h) :
    (K ++ S).head? = some h := by
  cases K with
  | nil => cases hh
  | cons a t =>
    simp only [List.head?_cons, Option.some.injEq] at hh
    simp [hh]

/-- Decomposing a two-event handler tail at a status change. -/
theorem tail2_decomp (s0 : JStatus) (site0 : Site)
    {l1 : List Ev} {s : JStatus} {site : Site} {l2 : List Ev}
    (h : [Ev.statusChange s0 site0, Ev.commit]
        = l1 ++ Ev.statusChange s site :: l2) :
    s = s0 ∧ site = site0 ∧ l2 = [Ev.commit] := by
  rcases l1 with _ | ⟨a, _ | ⟨b, l1'⟩⟩
  · rw [List.nil_append] at h
    injection h with h1 h2
    injection h1 with hs hsite
    exact ⟨hs.symm, hsite.symm, h2.symm⟩
  · injection h with h1 h2
    injection h2 with h3 h4
    exact absurd h3 (by simp)
  · injection h with h1 h2
    injection h2 with h3 h4
    exact absurd h4 (by simp)

/-- Decomposing a three-event handler tail at a status change. -/
theorem tail3_decomp (s0 : JStatus) (site0 : Site) (k : String)
    {l1 : List Ev} {s : JStatus} {site : Site} {l2 : List Ev}
    (h : [Ev.statusChange s0 site0, Ev.commit, Ev.cacheDelete k]
        = l1 ++ Ev.statusChange s site :: l2) :
    s = s0 ∧ site = site0 ∧ l2 = [Ev.commit, Ev.cacheDelete k] := by
  rcases l1 with _ | ⟨a, _ | ⟨b, _ | ⟨c, l1'⟩⟩⟩
  · rw [List.nil_append] at h
    injection h with h1 h2
    injection h1 with hs hsite
    exact ⟨hs.symm, hsite.symm, h2.symm⟩
  · injection h with h1 h2
    injection h2 with h3 h4
    exact absurd h3 (by simp)
  · injection h with h1 h2
    injection h2 with h3 h4
    injection h4 with h5 h6
    exact absurd h5 (by simp)
  · injection h with h1 h2
    injection h2 with h3 h4
    injection h4 with h5 h6
    exact absurd h6 (by simp)

/-- Every status change in a run's trace is followed as `scFollow`
describes. -/
theorem processAux_sc (T : Nat) (genv : GlobalEnv) (envs : Nat → AttemptEnv) :
    ∀ (fuel : Nat) (db : PDB) (rc : Nat) (l1 : List Ev) (s : JStatus) (site : Site)
      (l2 : List Ev),
      (processAux T genv envs fuel db rc).2.1 = l1 ++ Ev.statusChange s site :: l2 →
      scFollow site l2 := by
  intro fuel
  induction fuel with
  | zero =>
    intro db rc l1 s site l2 htr
    rw [show (processAux T genv envs 0 db rc).2.1 = [] from rfl] at htr
    exact absurd htr (by simp)
  | succ n ih =>
    intro db rc l1 s site l2 htr
    cases hjob : db.job with
    | none =>
      rw [show (processAux T genv envs (n + 1) db rc).2.1 = [Ev.attemptStart rc]
          from by simp [processAux, hjob]] at htr
      refine (no_sc_of_all ?_ htr).elim
      intro e he
      rw [List.mem_singleton] at he
      subst he
      simp
    | some job =>
      obtain ⟨ks, hks, hksmem, hne, hto, hnf, hhead⟩ :=
        attemptBody_core T genv (envs rc) rc db job
      simp only [processAux, hjob] at htr
      cases hsa : job.startedAt with
      | some st =>
        simp only [hsa] at htr
        by_cases hfire : T < (envs rc).entryNow - st
        · rw [if_pos (by simp [hfire])] at htr
          rcases append_cons_split _ _ _ _ _ htr with ⟨l2a, hA, hl2⟩ | ⟨l1b, hl1, hS⟩
          · refine (no_sc_of_all ?_ hA).elim
            intro e he
            simp at he
            rcases he with rfl | rfl <;> simp
          · obtain ⟨hs, hsite, hl2⟩ := tail2_decomp _ _ hS
            subst hsite
            subst hl2
            simp [scFollow]
        · rw [if_neg (by simp [hfire])] at htr
          cases hout : (attemptBody T genv (envs rc) rc db job).2.2.2 with
          | none => exact absurd hout hne
          | some be =>
            cases be with
            | timeoutE =>
              simp only [hout] at htr
              rw [hks] at htr
              rcases append_cons_split _ _ _ _ _ htr with ⟨l2a, hA, hl2⟩ | ⟨l1b, hl1, hS⟩
              · rcases append_cons_split _ _ _ _ _ hA with ⟨l2b, hP, hl2a⟩ | ⟨l1c, hl1c, hMK⟩
                · refine (no_sc_of_all ?_ hP).elim
                  intro e he
                  simp at he
                  rcases he with rfl | rfl <;> simp
                · rcases append_cons_split _ _ _ _ _ hMK with ⟨l2c, hM, hl2c⟩ | ⟨l1d, hl1d, hK⟩
                  · obtain ⟨hs, hsite, hl1n, hl2cv⟩ := markProcessing_sc job rc _ _ _ _ _ hM
                    subst hsite
                    subst hl2cv
                    subst hl2c
                    subst hl2
                    refine ⟨rfl, by simp, by simp, ?_, by simp⟩
                    intro _
                    exact ⟨1, (envs rc).check1Now, (envs rc).startTime,
                      (markProcessing job rc (envs rc).procNow).1.startedAt,
                      by simp [head_append hhead]⟩
                  · exact ((hksmem _ (by rw [hK]; simp)).2 s site rfl).elim
              · obtain ⟨hs, hsite, hl2⟩ := tail3_decomp _ _ _ hS
                subst hsite
                subst hl2
                simp [scFollow]
            | valueErr e =>
              simp only [hout] at htr
              by_cases hrc : rc < MAX_RETRIES
              · rw [if_pos hrc, hks] at htr
                rcases append_cons_split _ _ _ _ _ htr with ⟨l2a, hA, hl2⟩ | ⟨l1b, hl1, hS⟩
                · rcases append_cons_split _ _ _ _ _ hA with ⟨l2b, hP, hl2a⟩ | ⟨l1c, hl1c, hMK⟩
                  · refine (no_sc_of_all ?_ hP).elim
                    intro e2 he
                    simp at he
                    rcases he with rfl | rfl <;> simp
                  · rcases append_cons_split _ _ _ _ _ hMK with ⟨l2c, hM, hl2c⟩ | ⟨l1d, hl1d, hK⟩
                    · obtain ⟨hs, hsite, hl1n, hl2cv⟩ := markProcessing_sc job rc _ _ _ _ _ hM
                      subst hsite
                      subst hl2cv
                      subst hl2c
                      subst hl2
                      refine ⟨rfl, by simp, by simp, ?_, by simp⟩
                      intro _
                      exact ⟨1, (envs rc).check1Now, (envs rc).startTime,
                        (markProcessing job rc (envs rc).procNow).1.startedAt,
                        by simp [head_append hhead]⟩
                    · exact ((hksmem _ (by rw [hK]; simp)).2 s site rfl).elim
                · cases l1b with
                  | nil =>
                    injection hS with h1 h2
                    exact absurd h1 (by simp)
                  | cons e1 l1b' =>
                    injection hS with h1 h2
                    exact ih _ (rc + 1) l1b' s site l2 h2
              · rw [if_neg hrc, hks] at htr
                rcases append_cons_split _ _ _ _ _ htr with ⟨l2a, hA, hl2⟩ | ⟨l1b, hl1, hS⟩
                · rcases append_cons_split _ _ _ _ _ hA with ⟨l2b, hP, hl2a⟩ | ⟨l1c, hl1c, hMK⟩
                  · refine (no_sc_of_all ?_ hP).elim
                    intro e2 he
                    simp at he
                    rcases he with rfl | rfl <;> simp
                  · rcases append_cons_split _ _ _ _ _ hMK with ⟨l2c, hM, hl2c⟩ | ⟨l1d, hl1d, hK⟩
                    · obtain ⟨hs, hsite, hl1n, hl2cv⟩ := markProcessing_sc job rc _ _ _ _ _ hM
                      subst hsite
                      subst hl2cv
                      subst hl2c
                      subst hl2
                      refine ⟨rfl, by simp, by simp, ?_, by simp⟩
                      intro _
                      exact ⟨1, (envs rc).check1Now, (envs rc).startTime,
                        (markProcessing job rc (envs rc).procNow).1.startedAt,
                        by simp [head_append hhead]⟩
                    · exact ((hksmem _ (by rw [hK]; simp)).2 s site rfl).elim
                · obtain ⟨hs, hsite, hl2⟩ := tail3_decomp _ _ _ hS
                  subst hsite
                  subst hl2
                  simp [scFollow]
      | none =>
        simp only [hsa] at htr
        rw [if_neg (by simp)] at htr
        cases hout : (attemptBody T genv (envs rc) rc db job).2.2.2 with
        | none => exact absurd hout hne
        | some be =>
          cases be with
          | timeoutE =>
            simp only [hout] at htr
            rw [hks] at htr
            rcases append_cons_split _ _ _ _ _ htr with ⟨l2a, hA, hl2⟩ | ⟨l1b, hl1, hS⟩
            · rcases append_cons_split _ _ _ _ _ hA with ⟨l2b, hP, hl2a⟩ | ⟨l1c, hl1c, hMK⟩
              · refine (no_sc_of_all ?_ hP).elim
                intro e he
                simp at he
                subst he
                simp
              · rcases append_cons_split _ _ _ _ _ hMK with ⟨l2c, hM, hl2c⟩ | ⟨l1d, hl1d, hK⟩
                · obtain ⟨hs, hsite, hl1n, hl2cv⟩ := markProcessing_sc job rc _ _ _ _ _ hM
                  subst hsite
                  subst hl2cv
                  subst hl2c
                  subst hl2
                  refine ⟨rfl, by simp, by simp, ?_, by simp⟩
                  intro _
                  exact ⟨1, (envs rc).check1Now, (envs rc).startTime,
                    (markProcessing job rc (envs rc).procNow).1.startedAt,
                    by simp [head_append hhead]⟩
                · exact ((hksmem _ (by rw [hK]; simp)).2 s site rfl).elim
            · obtain ⟨hs, hsite, hl2⟩ := tail3_decomp _ _ _ hS
              subst hsite
              subst hl2
              simp [scFollow]
          | valueErr e =>
            simp only [hout] at htr
            by_cases hrc : rc < MAX_RETRIES
            · rw [if_pos hrc, hks] at htr
              rcases append_cons_split _ _ _ _ _ htr with ⟨l2a, hA, hl2⟩ | ⟨l1b, hl1, hS⟩
              · rcases append_cons_split _ _ _ _ _ hA with ⟨l2b, hP, hl2a⟩ | ⟨l1c, hl1c, hMK⟩
                · refine (no_sc_of_all ?_ hP).elim
                  intro e2 he
                  simp at he
                  subst he
                  simp
                · rcases append_cons_split _ _ _ _ _ hMK with ⟨l2c, hM, hl2c⟩ | ⟨l1d, hl1d, hK⟩
                  · obtain ⟨hs, hsite, hl1n, hl2cv⟩ := markProcessing_sc job rc _ _ _ _ _ hM
                    subst hsite
                    subst hl2cv
                    subst hl2c
                    subst hl2
                    refine ⟨rfl, by simp, by simp, ?_, by simp⟩
                    intro _
                    exact ⟨1, (envs rc).check1Now, (envs rc).startTime,
                      (markProcessing job rc (envs rc).procNow).1.startedAt,
                      by simp [head_append hhead]⟩
                  · exact ((hksmem _ (by rw [hK]; simp)).2 s site rfl).elim
              · cases l1b with
                | nil =>
                  injection hS with h1 h2
                  exact absurd h1 (by simp)
                | cons e1 l1b' =>
                  injection hS with h1 h2
                  exact ih _ (rc + 1) l1b' s site l2 h2
            · rw [if_neg hrc, hks] at htr
              rcases append_cons_split _ _ _ _ _ htr with ⟨l2a, hA, hl2⟩ | ⟨l1b, hl1, hS⟩
              · rcases append_cons_split _ _ _ _ _ hA with ⟨l2b, hP, hl2a⟩ | ⟨l1c, hl1c, hMK⟩
                · refine (no_sc_of_all ?_ hP).elim
                  intro e2 he
                  simp at he
                  subst he
                  simp
                · rcases append_cons_split _ _ _ _ _ hMK with ⟨l2c, hM, hl2c⟩ | ⟨l1d, hl1d, hK⟩
                  · obtain ⟨hs, hsite, hl1n, hl2cv⟩ := markProcessing_sc job rc _ _ _ _ _ hM
                    subst hsite
                    subst hl2cv
                    subst hl2c
                    subst hl2
                    refine ⟨rfl, by simp, by simp, ?_, by simp⟩
                    intro _
                    exact ⟨1, (envs rc).check1Now, (envs rc).startTime,
                      (markProcessing job rc (envs rc).procNow).1.startedAt,
                      by simp [head_append hhead]⟩
                  · exact ((hksmem _ (by rw [hK]; simp)).2 s site rfl).elim
              · obtain ⟨hs, hsite, hl2⟩ := tail3_decomp _ _ _ hS
                subst hsite
                subst hl2
                simp [scFollow]

/-- The amended C6 property over whole runs. -/
def claimC6Amended : Prop :=
  ∀ (T : Nat) (genv : GlobalEnv) (envs : Nat → AttemptEnv) (db : PDB) (rc : Nat),
    ∀ l1 s site l2,
      (process_job_with_retry T genv envs db rc).2.1 = l1 ++ Ev.statusChange s site :: l2 →
      scFollow site l2

/-- Claim C6, amended: every status change is committed immediately; the
timeout and exhaustion handlers (and the unreachable completion path)
invalidate the `job_count` cache entry right after their commit; but the
transition into PROCESSING is followed by the first in-body timeout
check with no invalidation of its own, and the pre-start timeout failure
ends the run at its commit with no invalidation at all. -/
theorem C6_amended : claimC6Amended := by
  intro T genv envs db rc l1 s site l2 htr
  exact processAux_sc T genv envs _ db rc l1 s site l2 htr

/-- Witness environment for the amended C6: entry at time 900 against
`started_at = 0`, far past the 300-second budget. -/
def c6wEnvs : Nat → AttemptEnv := fun _ => ⟨900, 900, 900, 900, 900, 900, 900, 900, true⟩

/-- Witness database for the amended C6: a job processing since time 0. -/
def c6wDb : PDB :=
  ⟨some ⟨JStatus.processing, some 0, 0, none, none⟩, true, some ["w"], []⟩

set_option maxRecDepth 16384 in
/-- Concrete instance of the amended C6: the pre-start timeout failure's
status change is followed by exactly its commit and nothing else. -/
theorem C6_amended_witness : scFollow Site.entryTimeout [Ev.commit] :=
  C6_amended 300 ⟨true, true, 1⟩ c6wEnvs c6wDb 0
    [Ev.attemptStart 0, Ev.entryCheck 900 0] JStatus.failed Site.entryTimeout
    [Ev.commit] (by decide)
